import Mathlib

/-!
Shallow embedding of the reti `StakingPool` contract (src/unnamed/part_001,
second `StakingPool` class, the one with `epochBalanceUpdate`) together with
theorems about its stake ledger and epoch reward distribution.

Modelling conventions:
* Algorand addresses are `Nat`, with `0` standing for the zero address.
* AVM uint64 arithmetic never overflows in the quantities handled here
  (wideRatio intermediates are exact in `Nat`); subtractions that would
  underflow (and hence abort the transaction) are guarded with explicit
  checks returning `none` where they occur in straight-line code.
* A failing assertion anywhere aborts the whole call with no state change,
  so every operation returns `Option` (`none` = transaction failed, state
  unchanged).
* Cross-contract reads (validator config, validator state, pool-1 token
  balance, the token payout ratio snapshot) are supplied as inputs of the
  call environment, mirroring the synchronous round-trips in the source.
-/

namespace Reti

/-- One slot of the stakers box: StakedInfo from the source. -/
structure StakedInfo where
  account : Nat
  balance : Nat
  totalRewarded : Nat
  rewardTokenBalance : Nat
  entryTime : Nat
deriving DecidableEq

/-- A vacant slot (zero address, all counters zero). -/
def emptySlot : StakedInfo := ⟨0, 0, 0, 0, 0⟩

/-- MAX_STAKERS_PER_POOL from constants.algo (referenced by the source). -/
def MAX_STAKERS_PER_POOL : Nat := 80

/-- Global state of one staking pool instance. -/
structure PoolState where
  validatorId : Nat
  poolId : Nat
  numStakers : Nat
  totalAlgoStaked : Nat
  minEntryStake : Nat
  lastPayout : Option Nat
  epochNumber : Nat
  algodVer : String
  stakers : List StakedInfo
deriving DecidableEq

/-- Sum of the balances of the occupied (non-zero-address) slots. -/
def occSum : List StakedInfo → Nat
  | [] => 0
  | s :: rest => (if s.account = 0 then 0 else s.balance) + occSum rest

/-- Number of occupied (non-zero-address) slots. -/
def countOcc : List StakedInfo → Nat
  | [] => 0
  | s :: rest => (if s.account = 0 then 0 else 1) + countOcc rest

/-- A slot holding a staker that was not in the pool for the whole epoch
(relative to current time `cur` and epoch length `e` in seconds): either the
entry time is in the future or the time in pool is below the epoch length. -/
def isPartialSlot (e cur : Nat) (s : StakedInfo) : Prop :=
  s.account ≠ 0 ∧ (cur < s.entryTime ∨ cur - s.entryTime < e)

instance (e cur : Nat) (s : StakedInfo) : Decidable (isPartialSlot e cur s) := by
  unfold isPartialSlot; infer_instance

/-- A slot holding a staker present for the entire epoch. -/
def isFullSlot (e cur : Nat) (s : StakedInfo) : Prop :=
  s.account ≠ 0 ∧ s.entryTime ≤ cur ∧ e ≤ cur - s.entryTime

instance (e cur : Nat) (s : StakedInfo) : Decidable (isFullSlot e cur s) := by
  unfold isFullSlot; infer_instance

/-- Total stake of the slots not present for the whole epoch. -/
def partialSum (e cur : Nat) : List StakedInfo → Nat
  | [] => 0
  | s :: rest => (if isPartialSlot e cur s then s.balance else 0) + partialSum e cur rest

/-- Total stake of the slots present for the whole epoch. -/
def fullSum (e cur : Nat) : List StakedInfo → Nat
  | [] => 0
  | s :: rest => (if isFullSlot e cur s then s.balance else 0) + fullSum e cur rest

/-- Number of slots present for the whole epoch. -/
def countFull (e cur : Nat) : List StakedInfo → Nat
  | [] => 0
  | s :: rest => (if isFullSlot e cur s then 1 else 0) + countFull e cur rest

/-- ALGORAND_STAKING_BLOCK_DELAY from the source. -/
def ALGORAND_STAKING_BLOCK_DELAY : Nat := 320

/-- AVG_BLOCK_TIME_SECS from the source (in tenths of a second). -/
def AVG_BLOCK_TIME_SECS : Nat := 28

/-- getEntryTime: current time pushed forward by the network visibility delay. -/
def getEntryTime (curTime : Nat) : Nat :=
  curTime + ALGORAND_STAKING_BLOCK_DELAY * AVG_BLOCK_TIME_SECS / 10

/-- Result of the addStake scan loop: either the staker was found (with the
updated ledger), or a 1-based-converted-to-0-based first-empty index was
recorded, or the loop ended without either. The loop in the source stops
scanning at the first empty slot it meets (`break`). -/
inductive AddScan where
  | updated (l : List StakedInfo)
  | firstEmpty (i : Nat)
  | noSlot
deriving DecidableEq

/-- The scan loop of addStake, translated faithfully: each iteration first
checks whether the slot belongs to `staker` (then adds the amount and resets
the entry time), and otherwise, if the slot is empty, records its index and
breaks out of the loop. -/
def addScan (staker amount entryTime : Nat) : List StakedInfo → AddScan
  | [] => .noSlot
  | s :: rest =>
    if s.account = staker then
      .updated ({ s with balance := s.balance + amount, entryTime := entryTime } :: rest)
    else if s.account = 0 then
      .firstEmpty 0
    else
      match addScan staker amount entryTime rest with
      | .updated l => .updated (s :: l)
      | .firstEmpty i => .firstEmpty (i + 1)
      | .noSlot => .noSlot

/-- addStake: called by the validator with a verified payment of `amount`;
returns the new state and the effective entry time, or `none` when the
transaction fails (zero-address staker, pool full, below minimum entry). -/
def addStake (st : PoolState) (staker amount curTime : Nat) : Option (PoolState × Nat) :=
  if staker = 0 then none
  else
    match addScan staker amount (getEntryTime curTime) st.stakers with
    | .updated l =>
      some ({ st with stakers := l, totalAlgoStaked := st.totalAlgoStaked + amount },
            getEntryTime curTime)
    | .firstEmpty i =>
      if st.minEntryStake ≤ amount then
        some ({ st with
                  stakers := st.stakers.set i ⟨staker, amount, 0, 0, getEntryTime curTime⟩,
                  numStakers := st.numStakers + 1,
                  totalAlgoStaked := st.totalAlgoStaked + amount }, getEntryTime curTime)
      else none
    | .noSlot => none

/-- What removeStake reports: the updated ledger, the payment made back to
the staker, the reward-token amount removed, and whether the slot was freed. -/
structure RemoveOut where
  stakers : List StakedInfo
  amountPaid : Nat
  tokenRemoved : Nat
  stakerRemoved : Bool
deriving DecidableEq

/-- A slot after full removal: account zeroed, balance and counters zeroed,
entry time left as is (exactly the fields the source zeroes). -/
def clearedSlot (s : StakedInfo) : StakedInfo :=
  { s with account := 0, balance := 0, totalRewarded := 0, rewardTokenBalance := 0 }

/-- The scan loop of removeStake over the ledger (first slot matching the
caller wins; `amount = 0` means withdraw the full balance). -/
def removeScan (staker amount minEntry : Nat) : List StakedInfo → Option RemoveOut
  | [] => none
  | s :: rest =>
    if s.account = staker then
      let amt := if amount = 0 then s.balance else amount
      if s.balance < amt then none
      else
        let bal' := s.balance - amt
        if bal' = 0 ∨ minEntry ≤ bal' then
          if bal' = 0 then
            some ⟨{ s with account := 0, balance := 0, totalRewarded := 0,
                            rewardTokenBalance := 0 } :: rest,
                  amt, s.rewardTokenBalance, true⟩
          else
            some ⟨{ s with balance := bal', rewardTokenBalance := 0 } :: rest,
                  amt, s.rewardTokenBalance, false⟩
        else none
    else
      match removeScan staker amount minEntry rest with
      | some out => some { out with stakers := s :: out.stakers }
      | none => none

/-- removeStake: the transaction sender removes (part of) their own stake. -/
def removeStake (st : PoolState) (staker amount : Nat) : Option (PoolState × RemoveOut) :=
  match removeScan staker amount st.minEntryStake st.stakers with
  | none => none
  | some out =>
    some ({ st with
              stakers := out.stakers,
              totalAlgoStaked := st.totalAlgoStaked - out.amountPaid,
              numStakers := if out.stakerRemoved then st.numStakers - 1 else st.numStakers },
          out)

/-- The scan loop of claimTokens (pays out the accrued reward-token balance
of the caller without touching the stake; no-op when that balance is zero). -/
def claimScan (staker : Nat) : List StakedInfo → Option (List StakedInfo × Nat)
  | [] => none
  | s :: rest =>
    if s.account = staker then
      if s.rewardTokenBalance = 0 then some (s :: rest, 0)
      else some ({ s with rewardTokenBalance := 0 } :: rest, s.rewardTokenBalance)
    else
      match claimScan staker rest with
      | some (l, amt) => some (s :: l, amt)
      | none => none

/-- claimTokens: sender claims their accrued reward tokens. -/
def claimTokens (st : PoolState) (staker : Nat) : Option (PoolState × Nat) :=
  match claimScan staker st.stakers with
  | none => none
  | some (l, amt) => some ({ st with stakers := l }, amt)

/-- The slice of ValidatorConfig that epochBalanceUpdate reads from the
registry (payout interval, commission, reward-token parameters, addresses). -/
structure ValidatorConfig where
  payoutEveryXMins : Nat
  percentToValidator : Nat
  rewardTokenId : Nat
  rewardPerPayout : Nat
  manager : Nat
  validatorCommissionAddress : Nat
deriving DecidableEq

/-- The slice of ValidatorState that epochBalanceUpdate reads. -/
structure ValidatorState where
  totalAlgoStaked : Nat
  rewardTokenHeldBack : Nat
deriving DecidableEq

/-- Call environment of one epochBalanceUpdate invocation: current time plus
everything obtained from the chain and from cross-contract round-trips. -/
structure EpochEnv where
  curTime : Nat
  config : ValidatorConfig
  vstate : ValidatorState
  balance : Nat
  minBalance : Nat
  poolOneTokenBalance : Nat
  poolPctOfWhole : Nat
  managerSpendable : Nat
  maxValidatorPctOfOnline : Nat
deriving DecidableEq

/-- getCurrentOnlineStake: fixed 2 billion ALGO (in microAlgo) as in the source. -/
def getCurrentOnlineStake : Nat := 2000000000000000

/-- algoSaturationLevel: the configured per-mille fraction of total online
stake. The per-mille constant (MAX_VALIDATOR_SOFT_PCT_OF_ONLINE_1DECIMAL,
from constants.algo, a file not present in the sources) is a parameter. -/
def algoSaturationLevel (maxPct : Nat) : Nat :=
  getCurrentOnlineStake * maxPct / 1000

/-- The token reward budget for this pool: zero unless pool 1's token holding
minus the held-back amount reaches the configured per-payout amount, else the
per-payout amount scaled by this pool's snapshotted percent-of-whole. -/
def tokenRewardAvailCalc (cfg : ValidatorConfig) (poolOneBal heldBack poolPct : Nat) : Nat :=
  if cfg.rewardTokenId ≠ 0 ∧ cfg.rewardPerPayout ≤ poolOneBal - heldBack then
    cfg.rewardPerPayout * poolPct / 1000000
  else 0

/-- The epoch gating check: when a last payout exists, at least one epoch
must have elapsed since it (a current time before the recorded last payout
would underflow and abort, hence also fails the gate). -/
def gatePasses (lastPayout : Option Nat) (cur e : Nat) : Bool :=
  match lastPayout with
  | some lp => decide (lp ≤ cur) && decide (e ≤ cur - lp)
  | none => true

/-- Accumulator of the first distribution pass. -/
structure PassAAcc where
  tokenAvail : Nat
  algoAvail : Nat
  tokenPaid : Nat
  increased : Nat
  partialTotal : Nat
deriving DecidableEq

/-- The pass-A reward credit for a partial-epoch slot: the slot's balance
times the running available reward times its time-percentage in tenths,
divided by the pool total times 1000 (zero when no reward is left, exactly
as the source only computes it under an availability check). -/
def passACredit (T0 e cur avail : Nat) (s : StakedInfo) : Nat :=
  if 0 < avail then s.balance * avail * ((cur - s.entryTime) * 1000 / e) / (T0 * 1000) else 0

/-- One iteration of pass A over a slot: partial-epoch stakers are credited
proportionally to stake and tenths-of-percent time in pool, each credit being
taken off the running available reward; their stake is accumulated into
`partialTotal` (future-dated entries count as partial with zero reward). -/
def passAStep (T0 e cur : Nat) (s : StakedInfo) (acc : PassAAcc) : StakedInfo × PassAAcc :=
  if s.account = 0 then (s, acc)
  else if cur < s.entryTime then
    (s, { acc with partialTotal := acc.partialTotal + s.balance })
  else if cur - s.entryTime < e then
    ({ s with balance := s.balance + passACredit T0 e cur acc.algoAvail s,
              totalRewarded := s.totalRewarded + passACredit T0 e cur acc.algoAvail s,
              rewardTokenBalance := s.rewardTokenBalance + passACredit T0 e cur acc.tokenAvail s },
     { tokenAvail := acc.tokenAvail - passACredit T0 e cur acc.tokenAvail s,
       algoAvail := acc.algoAvail - passACredit T0 e cur acc.algoAvail s,
       tokenPaid := acc.tokenPaid + passACredit T0 e cur acc.tokenAvail s,
       increased := acc.increased + passACredit T0 e cur acc.algoAvail s,
       partialTotal := acc.partialTotal + s.balance })
  else (s, acc)

/-- Pass A over the whole ledger, in slot order. -/
def passA (T0 e cur : Nat) : List StakedInfo → PassAAcc → List StakedInfo × PassAAcc
  | [], acc => ([], acc)
  | s :: rest, acc =>
    ((passAStep T0 e cur s acc).1 ::
       (passA T0 e cur rest (passAStep T0 e cur s acc).2).1,
     (passA T0 e cur rest (passAStep T0 e cur s acc).2).2)

/-- Accumulator of the second distribution pass. -/
structure PassBAcc where
  tokenPaid : Nat
  increased : Nat
deriving DecidableEq

/-- The pass-B reward credit for a full-epoch slot: its balance's share of
the remaining reward against the reduced pool total (zero when no reward is
left, exactly as the source only computes it under an availability check). -/
def passBCredit (avail newTotal : Nat) (s : StakedInfo) : Nat :=
  if 0 < avail then s.balance * avail / newTotal else 0

/-- One iteration of pass B: stakers present the whole epoch are credited
their share of the remaining rewards against the reduced total stake. -/
def passBStep (tokenAvail algoAvail newTotal e cur : Nat) (s : StakedInfo) (acc : PassBAcc) :
    StakedInfo × PassBAcc :=
  if s.account ≠ 0 ∧ s.entryTime < cur then
    if e ≤ cur - s.entryTime then
      ({ s with balance := s.balance + passBCredit algoAvail newTotal s,
                totalRewarded := s.totalRewarded + passBCredit algoAvail newTotal s,
                rewardTokenBalance := s.rewardTokenBalance + passBCredit tokenAvail newTotal s },
       { tokenPaid := acc.tokenPaid + passBCredit tokenAvail newTotal s,
         increased := acc.increased + passBCredit algoAvail newTotal s })
    else (s, acc)
  else (s, acc)

/-- Pass B over the whole ledger, in slot order. -/
def passB (tokenAvail algoAvail newTotal e cur : Nat) :
    List StakedInfo → PassBAcc → List StakedInfo × PassBAcc
  | [], acc => ([], acc)
  | s :: rest, acc =>
    ((passBStep tokenAvail algoAvail newTotal e cur s acc).1 ::
       (passB tokenAvail algoAvail newTotal e cur rest
          (passBStep tokenAvail algoAvail newTotal e cur s acc).2).1,
     (passB tokenAvail algoAvail newTotal e cur rest
        (passBStep tokenAvail algoAvail newTotal e cur s acc).2).2)

/-- Straight-line preamble of epochBalanceUpdate: surplus, token budget,
saturation dampening and validator commission, before the two passes. -/
structure EpochPrep where
  surplus : Nat
  tokenAvail0 : Nat
  commission : Nat
  excess : Nat
  availForDist : Nat
deriving DecidableEq

/-- The checks and straight-line reward computation of epochBalanceUpdate:
epoch gating, surplus computation (balance minus tracked stake minus minimum
balance), token budget, the 1-ALGO floor when no token reward exists, then
either saturation dampening (no commission, excess to the fee sink) or the
validator commission deduction. A subtraction that would underflow aborts. -/
def epochPrep (env : EpochEnv) (st : PoolState) : Option EpochPrep :=
  let cfg := env.config
  let e := cfg.payoutEveryXMins * 60
  if gatePasses st.lastPayout env.curTime e = false then none
  else if env.balance < st.totalAlgoStaked + env.minBalance then none
  else
    let s0 := env.balance - st.totalAlgoStaked - env.minBalance
    if cfg.rewardTokenId ≠ 0 ∧ env.poolOneTokenBalance < env.vstate.rewardTokenHeldBack then none
    else
      let tok := tokenRewardAvailCalc cfg env.poolOneTokenBalance
        env.vstate.rewardTokenHeldBack env.poolPctOfWhole
      if tok = 0 ∧ s0 ≤ 1000000 then none
      else
        let satLevel := algoSaturationLevel env.maxValidatorPctOfOnline
        if satLevel < env.vstate.totalAlgoStaked then
          let diminished := s0 * satLevel / env.vstate.totalAlgoStaked
          some ⟨s0, tok, 0, s0 - diminished, diminished⟩
        else if cfg.percentToValidator ≠ 0 then
          let c := s0 * cfg.percentToValidator / 1000000
          if s0 < c then none
          else some ⟨s0, tok, c, 0, s0 - c⟩
        else some ⟨s0, tok, 0, 0, s0⟩

/-- What epochBalanceUpdate reports to the registry, plus observations of the
intermediate reward amounts (the surplus, the token budget, and the algo
reward left for the stakers after saturation dampening or commission). -/
structure EpochSummary where
  increasedStake : Nat
  tokenRewardPaidOut : Nat
  validatorCommissionPaidOut : Nat
  excessToFeeSink : Nat
  tokenRewardAvailStart : Nat
  algoRewardAvailStart : Nat
  algoAvailForDistribution : Nat
deriving DecidableEq

/-- The pass-A run of epochBalanceUpdate: over the ledger in slot order,
starting from the token budget and the post-commission/saturation algo
reward. -/
def passARun (env : EpochEnv) (st : PoolState) (p : EpochPrep) :
    List StakedInfo × PassAAcc :=
  passA st.totalAlgoStaked (env.config.payoutEveryXMins * 60) env.curTime st.stakers
    ⟨p.tokenAvail0, p.availForDist, 0, 0, 0⟩

/-- The reduced pool total used by pass B: tracked total stake minus the
partial stakers' total stake. -/
def newPoolTotalStake (env : EpochEnv) (st : PoolState) (p : EpochPrep) : Nat :=
  st.totalAlgoStaked - (passARun env st p).2.partialTotal

/-- The pass-B run of epochBalanceUpdate over the pass-A output, skipped
entirely when the reduced pool total is zero. -/
def passBRun (env : EpochEnv) (st : PoolState) (p : EpochPrep) :
    List StakedInfo × PassBAcc :=
  if 0 < newPoolTotalStake env st p then
    passB (passARun env st p).2.tokenAvail (passARun env st p).2.algoAvail
      (newPoolTotalStake env st p) (env.config.payoutEveryXMins * 60) env.curTime
      (passARun env st p).1 ⟨0, 0⟩
  else ((passARun env st p).1, ⟨0, 0⟩)

/-- The two distribution passes and the final state updates (total staked
increased by the credited rewards, last payout set to now, epoch number
incremented). The manager top-off only reroutes part of the commission
payment and does not change any of the reported amounts. -/
def epochDistribute (env : EpochEnv) (st : PoolState) (p : EpochPrep) :
    PoolState × EpochSummary :=
  ({ st with
      stakers := (passBRun env st p).1,
      totalAlgoStaked := st.totalAlgoStaked + (passARun env st p).2.increased
        + (passBRun env st p).2.increased,
      lastPayout := some env.curTime,
      epochNumber := st.epochNumber + 1 },
   { increasedStake := (passARun env st p).2.increased + (passBRun env st p).2.increased,
     tokenRewardPaidOut := (passARun env st p).2.tokenPaid + (passBRun env st p).2.tokenPaid,
     validatorCommissionPaidOut := p.commission,
     excessToFeeSink := p.excess,
     tokenRewardAvailStart := p.tokenAvail0,
     algoRewardAvailStart := p.surplus,
     algoAvailForDistribution := p.availForDist })

/-- epochBalanceUpdate: permissionless epoch payout trigger. -/
def epochBalanceUpdate (env : EpochEnv) (st : PoolState) :
    Option (PoolState × EpochSummary) :=
  match epochPrep env st with
  | none => none
  | some p => some (epochDistribute env st p)

/-- createApplication: the pool is created by the validator contract with its
identifiers and minimum entry stake; the last-payout baseline is set to the
creation time and the epoch number starts at zero. `minStakeConst` stands for
MIN_ALGO_STAKE_PER_POOL from constants.algo (a file not in the sources). -/
def createApplication (creatingContractId validatorId poolId minEntryStake minStakeConst
    createTime : Nat) : Option PoolState :=
  if creatingContractId = 0 then
    if validatorId = 0 ∧ poolId = 0 ∧ minStakeConst ≤ minEntryStake then
      some ⟨validatorId, poolId, 0, 0, minEntryStake, some createTime, 0, "",
            List.replicate MAX_STAKERS_PER_POOL emptySlot⟩
    else none
  else
    if validatorId ≠ 0 ∧ poolId ≠ 0 ∧ minStakeConst ≤ minEntryStake then
      some ⟨validatorId, poolId, 0, 0, minEntryStake, some createTime, 0, "",
            List.replicate MAX_STAKERS_PER_POOL emptySlot⟩
    else none

/-- The freshly created pool state (the state createApplication writes). -/
def initialPool (validatorId poolId minEntryStake createTime : Nat) : PoolState :=
  ⟨validatorId, poolId, 0, 0, minEntryStake, some createTime, 0, "",
   List.replicate MAX_STAKERS_PER_POOL emptySlot⟩

/-- One external operation on a pool. -/
inductive PoolOp where
  | add (staker amount curTime : Nat)
  | remove (staker amount : Nat)
  | claim (staker : Nat)
  | epoch (env : EpochEnv)

/-- Apply one operation; a failed operation rolls back, leaving the state
unchanged (atomic all-or-nothing semantics). -/
def applyOp (op : PoolOp) (st : PoolState) : PoolState :=
  match op with
  | .add staker amount curTime =>
    match addStake st staker amount curTime with
    | some r => r.1
    | none => st
  | .remove staker amount =>
    match removeStake st staker amount with
    | some r => r.1
    | none => st
  | .claim staker =>
    match claimTokens st staker with
    | some r => r.1
    | none => st
  | .epoch env =>
    match epochBalanceUpdate env st with
    | some r => r.1
    | none => st

/-- Operations a real chain can deliver: the transaction sender of a
removeStake or claimTokens call is a signing account, never the zero address. -/
def opOk : PoolOp → Prop
  | .remove staker _ => staker ≠ 0
  | .claim staker => staker ≠ 0
  | _ => True

instance : ∀ op, Decidable (opOk op) := by
  intro op; cases op <;> unfold opOk <;> infer_instance

/-- Run a sequence of operations from a state. -/
def runOps (st : PoolState) : List PoolOp → PoolState
  | [] => st
  | op :: rest => runOps (applyOp op st) rest

/-- Ledger integrity: the tracked total equals the sum of occupied-slot
balances and the staker count equals the number of occupied slots. -/
def wfLedger (st : PoolState) : Prop :=
  st.totalAlgoStaked = occSum st.stakers ∧ st.numStakers = countOcc st.stakers

instance (st : PoolState) : Decidable (wfLedger st) := by
  unfold wfLedger; infer_instance

/-- Sum of a list of per-slot credits. -/
def listSum : List Nat → Nat
  | [] => 0
  | x :: rest => x + listSum rest

/-- Total of the pass-B credits the code hands out with a fixed remaining
reward `avail` and reduced total `newTotal` (the slots the code pays in pass
B are the occupied ones with entry time strictly before now and at least a
full epoch in the pool). -/
def passBCreditSum (avail newTotal e cur : Nat) : List StakedInfo → Nat
  | [] => 0
  | s :: rest =>
    (if s.account ≠ 0 ∧ s.entryTime < cur ∧ e ≤ cur - s.entryTime then
       passBCredit avail newTotal s
     else 0) + passBCreditSum avail newTotal e cur rest

/-- Definition following the spec text of the claimed pass A: every occupied
slot whose time-in-pool is below the epoch duration is credited
floor(balance * availableReward * timePercentage / (totalStaked * 1000)),
timePercentage = floor(timeInPool * 1000 / epochSeconds); each credit is
immediately subtracted from the remaining reward and the slot's balance is
added to the running partial-stakers stake total; a slot whose entry time is
in the future is counted as partial with zero reward. Returns the per-slot
credit list, the remaining reward, and the partial-stakers total stake. -/
def specPassACredits (T0 e cur : Nat) : Nat → List StakedInfo → List Nat × Nat × Nat
  | avail, [] => ([], avail, 0)
  | avail, s :: rest =>
    if s.account ≠ 0 then
      if cur < s.entryTime then
        let r := specPassACredits T0 e cur avail rest
        (0 :: r.1, r.2.1, s.balance + r.2.2)
      else if cur - s.entryTime < e then
        let c := s.balance * avail * ((cur - s.entryTime) * 1000 / e) / (T0 * 1000)
        let r := specPassACredits T0 e cur (avail - c) rest
        (c :: r.1, r.2.1, s.balance + r.2.2)
      else
        let r := specPassACredits T0 e cur avail rest
        (0 :: r.1, r.2.1, r.2.2)
    else
      let r := specPassACredits T0 e cur avail rest
      (0 :: r.1, r.2.1, r.2.2)

/-- Definition following the spec text of the claimed pass B: each staker
present for the whole epoch is credited
floor(balance * remainingReward / reducedTotal); when the reduced total is
zero, pass B distributes nothing. -/
def specPassBCredits (newTotal e cur avail : Nat) (l : List StakedInfo) : List Nat :=
  if newTotal = 0 then l.map fun _ => 0
  else l.map fun s => if isFullSlot e cur s then s.balance * avail / newTotal else 0

/-- Apply per-slot algo and token credit lists to a ledger: each slot's
balance and lifetime total-rewarded counter grow by its algo credit, its
reward-token balance by its token credit. -/
def creditSlots : List StakedInfo → List Nat → List Nat → List StakedInfo
  | s :: rest, a :: arest, t :: trest =>
    { s with balance := s.balance + a, totalRewarded := s.totalRewarded + a,
             rewardTokenBalance := s.rewardTokenBalance + t } :: creditSlots rest arest trest
  | l, _, _ => l

/-- The ledger after the claimed two-pass distribution (spec text), starting
from algo reward `algo0` and token reward `tok0`. -/
def specTwoPassLedger (T0 e cur algo0 tok0 : Nat) (l : List StakedInfo) : List StakedInfo :=
  let ra := specPassACredits T0 e cur algo0 l
  let rt := specPassACredits T0 e cur tok0 l
  let lA := creditSlots l ra.1 rt.1
  let newTotal := T0 - ra.2.2
  creditSlots lA (specPassBCredits newTotal e cur ra.2.1 lA)
    (specPassBCredits newTotal e cur rt.2.1 lA)

/-- The total algo credit of the claimed two-pass distribution (spec text). -/
def specTwoPassIncreased (T0 e cur algo0 tok0 : Nat) (l : List StakedInfo) : Nat :=
  let ra := specPassACredits T0 e cur algo0 l
  let rt := specPassACredits T0 e cur tok0 l
  let lA := creditSlots l ra.1 rt.1
  let newTotal := T0 - ra.2.2
  listSum ra.1 + listSum (specPassBCredits newTotal e cur ra.2.1 lA)

/-- Environment of the owner/manager-gated pool operations: the caller and
the owner/manager pair the registry currently reports (obtained by a fresh
read-only cross-contract query on every call; the pool stores neither). -/
structure AuthEnv where
  sender : Nat
  ownerFromRegistry : Nat
  managerFromRegistry : Nat
  registryAppAddress : Nat
deriving DecidableEq

/-- isOwnerOrManagerCaller: the sender matches the owner or the manager that
the registry reports for this validator. -/
def isOwnerOrManagerCaller (env : AuthEnv) : Bool :=
  decide (env.sender = env.ownerFromRegistry) || decide (env.sender = env.managerFromRegistry)

/-- goOnline: owner/manager-only online key registration (the key arguments
are forwarded to the key registration and play no role in authorization). -/
def goOnline (env : AuthEnv) (_votePK _selectionPK _stateProofPK : String)
    (_voteFirst _voteLast _voteKeyDilution : Nat) : Option Unit :=
  if isOwnerOrManagerCaller env then some () else none

/-- goOffline: owner/manager-only, except that the creating validator
contract itself may also call it (used when a pool is being moved). -/
def goOffline (env : AuthEnv) : Option Unit :=
  if env.sender ≠ env.registryAppAddress then
    if isOwnerOrManagerCaller env then some () else none
  else some ()

/-- updateAlgodVer: owner/manager-only update of the advertised node version. -/
def updateAlgodVer (env : AuthEnv) (st : PoolState) (ver : String) : Option PoolState :=
  if isOwnerOrManagerCaller env then some { st with algodVer := ver } else none

/-- linkToNFD: owner/manager-only verification call to the NFD registry. -/
def linkToNFD (env : AuthEnv) (_nfdAppId : Nat) (_nfdName : String) : Option Unit :=
  if isOwnerOrManagerCaller env then some () else none

/-- A default pool/summary pair used only to read off computed results. -/
def dummyResult : PoolState × EpochSummary :=
  (initialPool 0 0 0 0, ⟨0, 0, 0, 0, 0, 0, 0⟩)

/-- Operation trace exhibiting the first-empty-slot scan break: staker 7
fills slot 0, staker 9 fills slot 1, staker 7 fully unstakes (slot 0 becomes
empty), then staker 9 adds stake again. -/
def opsDup : List PoolOp :=
  [.add 7 2000000 100, .add 9 2000000 200, .remove 7 0, .add 9 1500000 300]

/-- Operation trace for exercising the ledger-integrity invariant. -/
def opsLedgerW : List PoolOp :=
  [.add 7 2000000 100, .add 9 3000000 200, .remove 7 0, .add 9 2000000 300,
   .remove 9 1500000, .claim 9]

/-- A freshly created pool used by the epoch-gating counterexample. -/
def stGateCx : PoolState := initialPool 1 1 1000000 1000

/-- First epochBalanceUpdate call environment only 30 seconds after the pool
was created, with a 1-minute epoch configured. -/
def envGateCx : EpochEnv :=
  ⟨1030, ⟨1, 0, 0, 0, 9, 8⟩, ⟨0, 0⟩, 0, 0, 0, 0, 0, 100⟩

/-- Pool with one staker used by the epoch-gating witness (failing side). -/
def stGateA : PoolState :=
  { initialPool 1 1 1000000 1000 with
      stakers := (List.replicate MAX_STAKERS_PER_POOL emptySlot).set 0 ⟨7, 2000000, 0, 0, 100⟩,
      numStakers := 1, totalAlgoStaked := 2000000 }

/-- Too-early epoch call environment for the gating witness. -/
def envGateA : EpochEnv :=
  ⟨1500, ⟨60, 0, 0, 0, 9, 8⟩, ⟨2000000, 0⟩, 4100000, 100000, 0, 0, 0, 100⟩

/-- On-time epoch call environment for the gating witness (succeeding side). -/
def envGateB : EpochEnv :=
  ⟨7200, ⟨60, 0, 0, 0, 9, 8⟩, ⟨2000000, 0⟩, 4100000, 100000, 0, 0, 0, 100⟩

/-- Result of the successful gating-witness call. -/
def resGateB : PoolState × EpochSummary :=
  (epochBalanceUpdate envGateB stGateA).getD dummyResult

/-- Pool with a single mid-epoch staker: the reward-conservation
counterexample state (the staker entered 1800 s before the 3600 s epoch
elapsed, so nobody is in the pool for the full epoch). -/
def stConsCx : PoolState :=
  { initialPool 1 1 1000000 0 with
      stakers := (List.replicate MAX_STAKERS_PER_POOL emptySlot).set 0 ⟨7, 1000000, 0, 0, 8200⟩,
      numStakers := 1, totalAlgoStaked := 1000000 }

/-- Epoch call environment of the reward-conservation counterexample:
surplus 2 ALGO, no commission, no token, not saturated. -/
def envConsCx : EpochEnv :=
  ⟨10000, ⟨60, 0, 0, 0, 11, 12⟩, ⟨1000000, 0⟩, 3100000, 100000, 0, 0, 1000000, 100⟩

/-- Pool with one full-epoch staker and one mid-epoch staker, used by the
reward-conservation witness. -/
def stConsW : PoolState :=
  { initialPool 1 1 1000000 0 with
      stakers := ((List.replicate MAX_STAKERS_PER_POOL emptySlot).set 0
          ⟨7, 2000000, 0, 0, 0⟩).set 1 ⟨9, 1000000, 0, 0, 8200⟩,
      numStakers := 2, totalAlgoStaked := 3000000 }

/-- Epoch call environment of the reward-conservation witness: surplus 2
ALGO, 5 percent commission, no token, not saturated. -/
def envConsW : EpochEnv :=
  ⟨10000, ⟨60, 50000, 0, 0, 11, 12⟩, ⟨3000000, 0⟩, 5100000, 100000, 0, 0, 1000000, 100⟩

/-- Result of the reward-conservation witness call. -/
def resConsW : PoolState × EpochSummary :=
  (epochBalanceUpdate envConsW stConsW).getD dummyResult

/-- Pool with one full-epoch staker, used by the saturation witness. -/
def stSatW : PoolState :=
  { initialPool 1 1 1000000 0 with
      stakers := (List.replicate MAX_STAKERS_PER_POOL emptySlot).set 0 ⟨7, 2000000, 0, 0, 0⟩,
      numStakers := 1, totalAlgoStaked := 2000000 }

/-- Epoch call environment of the saturation witness: the validator's
aggregate stake (300 billion microAlgo) exceeds the saturation level (200
billion at 100 per-mille of the fixed online stake). -/
def envSatW : EpochEnv :=
  ⟨100000, ⟨1, 50000, 0, 0, 11, 12⟩, ⟨300000000000000, 0⟩, 4100000, 100000, 0, 0, 1000000, 100⟩

/-- Result of the saturation witness call. -/
def resSatW : PoolState × EpochSummary :=
  (epochBalanceUpdate envSatW stSatW).getD dummyResult

/-- Pool with one full-epoch and one mid-epoch staker, used by the two-pass
distribution witness. -/
def stPassW : PoolState :=
  { initialPool 1 1 1000000 0 with
      stakers := ((List.replicate MAX_STAKERS_PER_POOL emptySlot).set 0
          ⟨7, 2000000, 0, 0, 0⟩).set 1 ⟨9, 2000000, 0, 0, 98200⟩,
      numStakers := 2, totalAlgoStaked := 4000000 }

/-- Epoch call environment of the two-pass witness: token-eligible validator
with a full token payout available and 5 percent commission. -/
def envPassW : EpochEnv :=
  ⟨100000, ⟨60, 50000, 5, 1000000, 11, 12⟩, ⟨4000000, 0⟩, 7100000, 100000, 2000000,
   1000000, 1000000, 100⟩

/-- Result of the two-pass witness call. -/
def resPassW : PoolState × EpochSummary :=
  (epochBalanceUpdate envPassW stPassW).getD dummyResult

/-- Pool used by the minimum-stake-boundary witness: staker 7 in slot 0 with
2 ALGO staked, 3 reward tokens accrued. -/
def stRemW : PoolState :=
  { initialPool 1 1 1000000 0 with
      stakers := ⟨7, 2000000, 5, 3, 100⟩ :: List.replicate 79 emptySlot,
      numStakers := 1, totalAlgoStaked := 2000000 }

/-- Result of the full-withdrawal call of the minimum-stake witness. -/
def resRemW : PoolState × RemoveOut :=
  (removeStake stRemW 7 0).getD (initialPool 0 0 0 0, ⟨[], 0, 0, false⟩)

/-- Caller that is the validator registry's application address but neither
the reported owner nor manager. -/
def authCx : AuthEnv := ⟨5, 1, 2, 5⟩

/-- Caller that is neither owner, manager, nor the registry address. -/
def authW : AuthEnv := ⟨9, 1, 2, 3⟩

/-- Pool with one full-epoch staker for the reward-floor witness. -/
def stFloorW : PoolState :=
  { initialPool 1 1 1000000 0 with
      stakers := (List.replicate MAX_STAKERS_PER_POOL emptySlot).set 0 ⟨7, 2000000, 0, 0, 0⟩,
      numStakers := 1, totalAlgoStaked := 2000000 }

/-- Reward-floor witness environment, failing side: no token reward and a
surplus of only half an ALGO. -/
def envFloorA : EpochEnv :=
  ⟨100000, ⟨60, 50000, 0, 0, 11, 12⟩, ⟨2000000, 0⟩, 2600000, 100000, 0, 0, 1000000, 100⟩

/-- Reward-floor witness environment, succeeding side: a token reward is
available and the algo surplus is still only half an ALGO. -/
def envFloorB : EpochEnv :=
  ⟨100000, ⟨60, 50000, 5, 1000000, 11, 12⟩, ⟨2000000, 0⟩, 2600000, 100000, 5000000,
   1000000, 1000000, 100⟩

/-- Token-budget witness environment: token-eligible validator whose pool-1
token holding is below the configured per-payout amount. -/
def envTokW : EpochEnv :=
  ⟨100000, ⟨60, 50000, 5, 10000000, 11, 12⟩, ⟨2000000, 0⟩, 4100000, 100000, 5000000,
   1000000, 1000000, 100⟩

/-- Result of the token-budget witness call. -/
def resTokW : PoolState × EpochSummary :=
  (epochBalanceUpdate envTokW stFloorW).getD dummyResult

/-! ### Arithmetic helpers -/

lemma div_le_of_le_mul {x d m : Nat} (h : x ≤ d * m) : x / d ≤ m := by
  rcases Nat.eq_zero_or_pos d with h0 | hp
  · simp [h0]
  · calc x / d ≤ d * m / d := Nat.div_le_div_right h
      _ = m := Nat.mul_div_cancel_left m hp

lemma add_div_le (a b c : Nat) : (a + b) / c ≤ a / c + b / c + 1 := by
  rcases Nat.eq_zero_or_pos c with h0 | hp
  · simp [h0]
  · have h1 := Nat.div_add_mod a c
    have h2 := Nat.div_add_mod b c
    have hr1 : a % c < c := Nat.mod_lt _ hp
    have hr2 : b % c < c := Nat.mod_lt _ hp
    have hexp : (a / c + b / c + 2) * c = c * (a / c) + c * (b / c) + (c + c) := by ring
    have hlt : a + b < (a / c + b / c + 2) * c := by omega
    have := (Nat.div_lt_iff_lt_mul hp).mpr hlt
    omega

lemma le_add_div (a b c : Nat) : a / c + b / c ≤ (a + b) / c := by
  rcases Nat.eq_zero_or_pos c with h0 | hp
  · simp [h0]
  · rw [Nat.le_div_iff_mul_le hp, Nat.add_mul]
    exact Nat.add_le_add (Nat.div_mul_le_self a c) (Nat.div_mul_le_self b c)

lemma passACredit_le {T0 e cur avail : Nat} (s : StakedInfo)
    (hb : s.balance ≤ T0) (ht : cur - s.entryTime < e) :
    passACredit T0 e cur avail s ≤ avail := by
  unfold passACredit
  split_ifs with hav
  · have he : 0 < e := by omega
    have hp : (cur - s.entryTime) * 1000 / e ≤ 1000 := by
      have hm : (cur - s.entryTime) * 1000 ≤ e * 1000 :=
        Nat.mul_le_mul_right _ (Nat.le_of_lt ht)
      calc (cur - s.entryTime) * 1000 / e ≤ e * 1000 / e := Nat.div_le_div_right hm
        _ = 1000 := Nat.mul_div_cancel_left 1000 he
    apply div_le_of_le_mul
    calc s.balance * avail * ((cur - s.entryTime) * 1000 / e)
        ≤ T0 * avail * 1000 := Nat.mul_le_mul (Nat.mul_le_mul_right _ hb) hp
      _ = T0 * 1000 * avail := by ring
  · exact Nat.zero_le _

/-! ### Ledger sum lemmas -/

lemma balance_le_occSum {l : List StakedInfo} {s : StakedInfo}
    (hmem : s ∈ l) (hocc : s.account ≠ 0) : s.balance ≤ occSum l := by
  induction l with
  | nil => cases hmem
  | cons x rest ih =>
    rcases List.mem_cons.mp hmem with rfl | hmem'
    · simp only [occSum, if_neg hocc]; omega
    · have := ih hmem'
      simp only [occSum]; omega

lemma occSum_split (e cur : Nat) (l : List StakedInfo) :
    occSum l = partialSum e cur l + fullSum e cur l := by
  induction l with
  | nil => simp [occSum, partialSum, fullSum]
  | cons s rest ih =>
    simp only [occSum, partialSum, fullSum]
    by_cases hocc : s.account = 0
    · rw [if_pos hocc, if_neg, if_neg]
      · omega
      · exact fun h => h.1 hocc
      · exact fun h => h.1 hocc
    · by_cases hfut : cur < s.entryTime
      · rw [if_neg hocc, if_pos ⟨hocc, Or.inl hfut⟩, if_neg]
        · omega
        · rintro ⟨-, hle, -⟩; omega
      · by_cases hpart : cur - s.entryTime < e
        · rw [if_neg hocc, if_pos ⟨hocc, Or.inr hpart⟩, if_neg]
          · omega
          · rintro ⟨-, -, hge⟩; omega
        · rw [if_neg hocc, if_neg, if_pos ⟨hocc, by omega, by omega⟩]
          · omega
          · rintro ⟨-, h | h⟩ <;> omega

lemma countFull_le_countOcc (e cur : Nat) (l : List StakedInfo) :
    countFull e cur l ≤ countOcc l := by
  induction l with
  | nil => simp [countFull, countOcc]
  | cons s rest ih =>
    simp only [countFull, countOcc]
    by_cases hf : isFullSlot e cur s
    · rw [if_pos hf, if_neg hf.1]; omega
    · rw [if_neg hf]; split_ifs <;> omega

/-! ### addStake scan lemmas -/

lemma addScan_updated (staker amount et : Nat) (hz : staker ≠ 0) :
    ∀ l l', addScan staker amount et l = .updated l' →
      occSum l' = occSum l + amount ∧ countOcc l' = countOcc l := by
  intro l
  induction l with
  | nil => intro l' h; simp [addScan] at h
  | cons s rest ih =>
    intro l' h
    by_cases hs : s.account = staker
    · have hocc : s.account ≠ 0 := hs ▸ hz
      simp only [addScan, if_pos hs, AddScan.updated.injEq] at h
      subst h
      simp only [occSum, countOcc]
      simp [hocc]
      omega
    · by_cases h0 : s.account = 0
      · simp [addScan, if_neg hs, if_pos h0] at h
      · simp only [addScan, if_neg hs, if_neg h0] at h
        cases hrec : addScan staker amount et rest with
        | updated l2 =>
          rw [hrec] at h
          simp only [AddScan.updated.injEq] at h
          subst h
          obtain ⟨h1, h2⟩ := ih l2 hrec
          simp only [occSum, countOcc, if_neg h0]
          omega
        | firstEmpty i => rw [hrec] at h; simp at h
        | noSlot => rw [hrec] at h; simp at h

lemma addScan_firstEmpty (staker amount et : Nat) (w : StakedInfo) (hw : w.account ≠ 0) :
    ∀ l i, addScan staker amount et l = .firstEmpty i →
      occSum (l.set i w) = occSum l + w.balance ∧
      countOcc (l.set i w) = countOcc l + 1 := by
  intro l
  induction l with
  | nil => intro i h; simp [addScan] at h
  | cons s rest ih =>
    intro i h
    by_cases hs : s.account = staker
    · simp [addScan, if_pos hs] at h
    · by_cases h0 : s.account = 0
      · simp only [addScan, if_neg hs, if_pos h0, AddScan.firstEmpty.injEq] at h
        subst h
        simp only [List.set_cons_zero, occSum, countOcc, if_pos h0, if_neg hw]
        omega
      · simp only [addScan, if_neg hs, if_neg h0] at h
        cases hrec : addScan staker amount et rest with
        | updated l2 => rw [hrec] at h; simp at h
        | firstEmpty j =>
          rw [hrec] at h
          simp only [AddScan.firstEmpty.injEq] at h
          subst h
          obtain ⟨h1, h2⟩ := ih j hrec
          simp only [List.set_cons_succ, occSum, countOcc, if_neg h0]
          omega
        | noSlot => rw [hrec] at h; simp at h

/-! ### removeStake and claimTokens scan lemmas -/

lemma removeScan_some (staker amount minEntry : Nat) (hz : staker ≠ 0) :
    ∀ l out, removeScan staker amount minEntry l = some out →
      occSum l = occSum out.stakers + out.amountPaid ∧
      countOcc l = countOcc out.stakers + (if out.stakerRemoved then 1 else 0) := by
  intro l
  induction l with
  | nil => intro out h; simp [removeScan] at h
  | cons s rest ih =>
    intro out h
    by_cases hs : s.account = staker
    · have hocc : s.account ≠ 0 := hs ▸ hz
      simp only [removeScan, if_pos hs] at h
      split_ifs at h
      all_goals first
        | exact Option.noConfusion h
        | (injection h with h; subst h;
           constructor <;> (simp [occSum, countOcc, hocc]; try omega))
    · simp only [removeScan, if_neg hs] at h
      cases hrec : removeScan staker amount minEntry rest with
      | some out' =>
        rw [hrec] at h
        injection h with h
        subst h
        obtain ⟨h1, h2⟩ := ih out' hrec
        refine ⟨?_, ?_⟩ <;>
          · simp only [occSum, countOcc]
            split_ifs at h2 ⊢ <;> omega
      | none => rw [hrec] at h; simp at h

lemma claimScan_some (staker : Nat) :
    ∀ l l' amt, claimScan staker l = some (l', amt) →
      occSum l' = occSum l ∧ countOcc l' = countOcc l := by
  intro l
  induction l with
  | nil => intro l' amt h; simp [claimScan] at h
  | cons s rest ih =>
    intro l' amt h
    by_cases hs : s.account = staker
    · simp only [claimScan, if_pos hs] at h
      split_ifs at h with hrz
      · simp only [Option.some.injEq, Prod.mk.injEq] at h
        obtain ⟨rfl, -⟩ := h
        exact ⟨rfl, rfl⟩
      · simp only [Option.some.injEq, Prod.mk.injEq] at h
        obtain ⟨rfl, -⟩ := h
        exact ⟨rfl, rfl⟩
    · simp only [claimScan, if_neg hs] at h
      cases hrec : claimScan staker rest with
      | some p =>
        rw [hrec] at h
        simp only [Option.some.injEq, Prod.mk.injEq] at h
        obtain ⟨rfl, -⟩ := h
        obtain ⟨h1, h2⟩ := ih p.1 p.2 (by rw [hrec])
        simp only [occSum, countOcc]
        omega
      | none => rw [hrec] at h; simp at h

/-! ### Pass A fold lemmas -/

lemma passAStep_account (T0 e cur : Nat) (s : StakedInfo) (acc : PassAAcc) :
    (passAStep T0 e cur s acc).1.account = s.account := by
  unfold passAStep; split_ifs <;> rfl

lemma passAStep_entryTime (T0 e cur : Nat) (s : StakedInfo) (acc : PassAAcc) :
    (passAStep T0 e cur s acc).1.entryTime = s.entryTime := by
  unfold passAStep; split_ifs <;> rfl

lemma passA_occSum (T0 e cur : Nat) :
    ∀ (l : List StakedInfo) (acc : PassAAcc),
      occSum (passA T0 e cur l acc).1 + acc.increased
        = occSum l + (passA T0 e cur l acc).2.increased := by
  intro l
  induction l with
  | nil => intro acc; simp [passA]
  | cons s rest ih =>
    intro acc
    simp only [passA, occSum]
    have hrec := ih (passAStep T0 e cur s acc).2
    have hbal : (if (passAStep T0 e cur s acc).1.account = 0 then 0
                   else (passAStep T0 e cur s acc).1.balance) + acc.increased
              = (if s.account = 0 then 0 else s.balance) + (passAStep T0 e cur s acc).2.increased := by
      by_cases h1 : s.account = 0
      · simp only [passAStep, if_pos h1]
      · by_cases h2 : cur < s.entryTime
        · simp only [passAStep, if_neg h1, if_pos h2]
        · by_cases h3 : cur - s.entryTime < e
          · simp only [passAStep, if_neg h1, if_neg h2, if_pos h3]
            omega
          · simp only [passAStep, if_neg h1, if_neg h2, if_neg h3]
    omega

lemma passA_countOcc (T0 e cur : Nat) :
    ∀ (l : List StakedInfo) (acc : PassAAcc),
      countOcc (passA T0 e cur l acc).1 = countOcc l := by
  intro l
  induction l with
  | nil => intro acc; simp [passA]
  | cons s rest ih =>
    intro acc
    simp only [passA, countOcc]
    rw [passAStep_account, ih]

lemma passA_partialTotal (T0 e cur : Nat) :
    ∀ (l : List StakedInfo) (acc : PassAAcc),
      (passA T0 e cur l acc).2.partialTotal
        = acc.partialTotal + partialSum e cur l := by
  intro l
  induction l with
  | nil => intro acc; simp [passA, partialSum]
  | cons s rest ih =>
    intro acc
    simp only [passA, partialSum]
    rw [ih]
    have hstep : (passAStep T0 e cur s acc).2.partialTotal
        = acc.partialTotal + (if isPartialSlot e cur s then s.balance else 0) := by
      by_cases h1 : s.account = 0
      · simp only [passAStep, if_pos h1]
        rw [if_neg (fun hp => hp.1 h1)]
        omega
      · by_cases h2 : cur < s.entryTime
        · simp only [passAStep, if_neg h1, if_pos h2]
          rw [if_pos ⟨h1, Or.inl h2⟩]
        · by_cases h3 : cur - s.entryTime < e
          · simp only [passAStep, if_neg h1, if_neg h2, if_pos h3]
            rw [if_pos ⟨h1, Or.inr h3⟩]
          · simp only [passAStep, if_neg h1, if_neg h2, if_neg h3]
            rw [if_neg ?hc]
            case hc => rintro ⟨-, hc | hc⟩ <;> omega
            omega
    omega

lemma passA_fullSum (e cur T0 : Nat) :
    ∀ (l : List StakedInfo) (acc : PassAAcc),
      fullSum e cur (passA T0 e cur l acc).1 = fullSum e cur l := by
  intro l
  induction l with
  | nil => intro acc; simp [passA]
  | cons s rest ih =>
    intro acc
    simp only [passA, fullSum]
    rw [ih]
    have hstep : (if isFullSlot e cur (passAStep T0 e cur s acc).1
                  then (passAStep T0 e cur s acc).1.balance else 0)
        = (if isFullSlot e cur s then s.balance else 0) := by
      by_cases h1 : s.account = 0
      · simp only [passAStep, if_pos h1]
      · by_cases h2 : cur < s.entryTime
        · simp only [passAStep, if_neg h1, if_pos h2]
        · by_cases h3 : cur - s.entryTime < e
          · simp only [passAStep, if_neg h1, if_neg h2, if_pos h3]
            rw [if_neg ?hca, if_neg ?hcb]
            case hca =>
              unfold isFullSlot
              simp only
              rintro ⟨-, -, hge⟩
              omega
            case hcb => rintro ⟨-, -, hge⟩; omega
          · simp only [passAStep, if_neg h1, if_neg h2, if_neg h3]
    omega

lemma passA_countFull (e cur T0 : Nat) :
    ∀ (l : List StakedInfo) (acc : PassAAcc),
      countFull e cur (passA T0 e cur l acc).1 = countFull e cur l := by
  intro l
  induction l with
  | nil => intro acc; simp [passA]
  | cons s rest ih =>
    intro acc
    simp only [passA, countFull]
    rw [ih]
    have hstep : (if isFullSlot e cur (passAStep T0 e cur s acc).1 then 1 else 0)
        = (if isFullSlot e cur s then (1 : Nat) else 0) := by
      by_cases h1 : s.account = 0
      · simp only [passAStep, if_pos h1]
      · by_cases h2 : cur < s.entryTime
        · simp only [passAStep, if_neg h1, if_pos h2]
        · by_cases h3 : cur - s.entryTime < e
          · simp only [passAStep, if_neg h1, if_neg h2, if_pos h3]
            rw [if_neg ?hca, if_neg ?hcb]
            case hca =>
              unfold isFullSlot
              simp only
              rintro ⟨-, -, hge⟩
              omega
            case hcb => rintro ⟨-, -, hge⟩; omega
          · simp only [passAStep, if_neg h1, if_neg h2, if_neg h3]
    omega

lemma passA_algoAvail (T0 e cur : Nat) :
    ∀ (l : List StakedInfo) (acc : PassAAcc),
      (∀ s ∈ l, s.account ≠ 0 → s.balance ≤ T0) →
      (passA T0 e cur l acc).2.algoAvail + (passA T0 e cur l acc).2.increased
        = acc.algoAvail + acc.increased := by
  intro l
  induction l with
  | nil => intro acc _; simp [passA]
  | cons s rest ih =>
    intro acc hb
    simp only [passA]
    rw [ih _ (fun x hx => hb x (List.mem_cons_of_mem _ hx))]
    by_cases h1 : s.account = 0
    · simp only [passAStep, if_pos h1]
    · by_cases h2 : cur < s.entryTime
      · simp only [passAStep, if_neg h1, if_pos h2]
      · by_cases h3 : cur - s.entryTime < e
        · have hcle : passACredit T0 e cur acc.algoAvail s ≤ acc.algoAvail :=
            passACredit_le s (hb s (List.mem_cons_self _ _) h1) h3
          simp only [passAStep, if_neg h1, if_neg h2, if_pos h3]
          omega
        · simp only [passAStep, if_neg h1, if_neg h2, if_neg h3]

lemma passA_tokenZero (T0 e cur : Nat) :
    ∀ (l : List StakedInfo) (acc : PassAAcc), acc.tokenAvail = 0 →
      (passA T0 e cur l acc).2.tokenAvail = 0 ∧
      (passA T0 e cur l acc).2.tokenPaid = acc.tokenPaid ∧
      (passA T0 e cur l acc).1.map (fun s => s.rewardTokenBalance)
        = l.map (fun s => s.rewardTokenBalance) := by
  intro l
  induction l with
  | nil => intro acc h0; simp [passA, h0]
  | cons s rest ih =>
    intro acc h0
    simp only [passA, List.map_cons]
    have hstep : (passAStep T0 e cur s acc).2.tokenAvail = 0 ∧
        (passAStep T0 e cur s acc).2.tokenPaid = acc.tokenPaid ∧
        (passAStep T0 e cur s acc).1.rewardTokenBalance = s.rewardTokenBalance := by
      by_cases h1 : s.account = 0
      · simp only [passAStep, if_pos h1]
        simp [h0]
      · by_cases h2 : cur < s.entryTime
        · simp only [passAStep, if_neg h1, if_pos h2]
          simp [h0]
        · by_cases h3 : cur - s.entryTime < e
          · simp only [passAStep, if_neg h1, if_neg h2, if_pos h3, passACredit, h0]
            simp
          · simp only [passAStep, if_neg h1, if_neg h2, if_neg h3]
            simp [h0]
    obtain ⟨hs1, hs2, hs3⟩ := hstep
    obtain ⟨hr1, hr2, hr3⟩ := ih (passAStep T0 e cur s acc).2 hs1
    refine ⟨hr1, by omega, ?_⟩
    rw [hr3, hs3]


/-! ### Pass B fold lemmas -/

lemma passB_increased (tv av N e cur : Nat) :
    ∀ (l : List StakedInfo) (acc : PassBAcc),
      (passB tv av N e cur l acc).2.increased
        = acc.increased + passBCreditSum av N e cur l := by
  intro l
  induction l with
  | nil => intro acc; simp [passB, passBCreditSum]
  | cons s rest ih =>
    intro acc
    simp only [passB, passBCreditSum]
    rw [ih]
    by_cases h1 : s.account ≠ 0 ∧ s.entryTime < cur
    · by_cases h2 : e ≤ cur - s.entryTime
      · simp only [passBStep, if_pos h1, if_pos h2]
        rw [if_pos ⟨h1.1, h1.2, h2⟩]
        omega
      · simp only [passBStep, if_pos h1, if_neg h2]
        rw [if_neg (fun hc => h2 hc.2.2)]
        omega
    · simp only [passBStep, if_neg h1]
      rw [if_neg (fun hc => h1 ⟨hc.1, hc.2.1⟩)]
      omega

lemma passB_occSum (tv av N e cur : Nat) :
    ∀ (l : List StakedInfo) (acc : PassBAcc),
      occSum (passB tv av N e cur l acc).1 + acc.increased
        = occSum l + (passB tv av N e cur l acc).2.increased := by
  intro l
  induction l with
  | nil => intro acc; simp [passB]
  | cons s rest ih =>
    intro acc
    simp only [passB, occSum]
    by_cases h1 : s.account ≠ 0 ∧ s.entryTime < cur
    · by_cases h2 : e ≤ cur - s.entryTime
      · simp only [passBStep, if_pos h1, if_pos h2]
        have hrec := ih ({ tokenPaid := acc.tokenPaid + passBCredit tv N s,
                           increased := acc.increased + passBCredit av N s } : PassBAcc)
        simp only [if_neg h1.1] at hrec ⊢
        omega
      · simp only [passBStep, if_pos h1, if_neg h2]
        have hrec := ih acc
        omega
    · simp only [passBStep, if_neg h1]
      have hrec := ih acc
      omega

lemma passB_countOcc (tv av N e cur : Nat) :
    ∀ (l : List StakedInfo) (acc : PassBAcc),
      countOcc (passB tv av N e cur l acc).1 = countOcc l := by
  intro l
  induction l with
  | nil => intro acc; simp [passB]
  | cons s rest ih =>
    intro acc
    simp only [passB, countOcc]
    rw [ih]
    have hacct : (passBStep tv av N e cur s acc).1.account = s.account := by
      unfold passBStep; split_ifs <;> rfl
    rw [hacct]

lemma passB_tokenZero (av N e cur : Nat) :
    ∀ (l : List StakedInfo) (acc : PassBAcc),
      (passB 0 av N e cur l acc).2.tokenPaid = acc.tokenPaid ∧
      (passB 0 av N e cur l acc).1.map (fun s => s.rewardTokenBalance)
        = l.map (fun s => s.rewardTokenBalance) := by
  intro l
  induction l with
  | nil => intro acc; simp [passB]
  | cons s rest ih =>
    intro acc
    simp only [passB, List.map_cons]
    have hstep : (passBStep 0 av N e cur s acc).2.tokenPaid = acc.tokenPaid ∧
        (passBStep 0 av N e cur s acc).1.rewardTokenBalance = s.rewardTokenBalance := by
      by_cases h1 : s.account ≠ 0 ∧ s.entryTime < cur
      · by_cases h2 : e ≤ cur - s.entryTime
        · simp only [passBStep, if_pos h1, if_pos h2, passBCredit]
          simp
        · simp only [passBStep, if_pos h1, if_neg h2]
          simp
      · simp only [passBStep, if_neg h1]
        simp
    obtain ⟨hs1, hs2⟩ := hstep
    obtain ⟨hr1, hr2⟩ := ih (passBStep 0 av N e cur s acc).2
    refine ⟨by omega, ?_⟩
    rw [hr2, hs2]

lemma passBCreditSum_bounds (av N e cur : Nat) (he : 0 < e) :
    ∀ (l : List StakedInfo),
      passBCreditSum av N e cur l ≤ fullSum e cur l * av / N ∧
      fullSum e cur l * av / N ≤ passBCreditSum av N e cur l + countFull e cur l := by
  intro l
  induction l with
  | nil => simp [passBCreditSum, fullSum, countFull]
  | cons s rest ih =>
    obtain ⟨ih1, ih2⟩ := ih
    simp only [passBCreditSum, fullSum, countFull]
    by_cases hf : isFullSlot e cur s
    · have hcond : s.account ≠ 0 ∧ s.entryTime < cur ∧ e ≤ cur - s.entryTime := by
        obtain ⟨ha, hb, hc⟩ := hf
        exact ⟨ha, by omega, hc⟩
      rw [if_pos hcond, if_pos hf, if_pos hf]
      rcases Nat.eq_zero_or_pos av with hav0 | hav
      · subst hav0
        simp only [passBCredit, Nat.mul_zero, Nat.zero_div] at ih1 ih2 ⊢
        simp only [Nat.lt_irrefl, if_false] at ih1 ih2 ⊢
        omega
      · have hcred : passBCredit av N s = s.balance * av / N := by
          unfold passBCredit; rw [if_pos hav]
        rw [hcred]
        constructor
        · calc s.balance * av / N + passBCreditSum av N e cur rest
              ≤ s.balance * av / N + fullSum e cur rest * av / N := by omega
            _ ≤ (s.balance * av + fullSum e cur rest * av) / N := le_add_div _ _ _
            _ = (s.balance + fullSum e cur rest) * av / N := by rw [Nat.add_mul]
        · calc (s.balance + fullSum e cur rest) * av / N
              = (s.balance * av + fullSum e cur rest * av) / N := by rw [Nat.add_mul]
            _ ≤ s.balance * av / N + fullSum e cur rest * av / N + 1 := add_div_le _ _ _
            _ ≤ s.balance * av / N + (passBCreditSum av N e cur rest + countFull e cur rest) + 1 := by
                omega
            _ = s.balance * av / N + passBCreditSum av N e cur rest + (1 + countFull e cur rest) := by
                omega
    · have hcond : ¬(s.account ≠ 0 ∧ s.entryTime < cur ∧ e ≤ cur - s.entryTime) := by
        rintro ⟨ha, hb, hc⟩
        exact hf ⟨ha, by omega, hc⟩
      rw [if_neg hcond, if_neg hf, if_neg hf]
      simp only [Nat.zero_add]
      omega



/-! ### Operation-level ledger integrity -/

lemma epochBalanceUpdate_eq {env : EpochEnv} {st st' : PoolState} {sum : EpochSummary}
    (h : epochBalanceUpdate env st = some (st', sum)) :
    ∃ p, epochPrep env st = some p ∧ epochDistribute env st p = (st', sum) := by
  unfold epochBalanceUpdate at h
  cases hprep : epochPrep env st with
  | none => rw [hprep] at h; exact absurd h (by simp)
  | some p =>
    rw [hprep] at h
    injection h with h
    exact ⟨p, rfl, h⟩

lemma addStake_wf {st : PoolState} {staker amount curTime : Nat} {st' : PoolState} {et : Nat}
    (h : addStake st staker amount curTime = some (st', et)) (hwf : wfLedger st) :
    wfLedger st' := by
  obtain ⟨hw1, hw2⟩ := hwf
  unfold addStake at h
  by_cases hz : staker = 0
  · rw [if_pos hz] at h; exact absurd h (by simp)
  · rw [if_neg hz] at h
    cases hscan : addScan staker amount (getEntryTime curTime) st.stakers with
    | updated l =>
      rw [hscan] at h
      injection h with h
      injection h with h1 h2
      subst h1
      obtain ⟨hs1, hs2⟩ := addScan_updated staker amount (getEntryTime curTime) hz st.stakers l hscan
      constructor
      · show st.totalAlgoStaked + amount = occSum l
        omega
      · show st.numStakers = countOcc l
        omega
    | firstEmpty i =>
      rw [hscan] at h
      split_ifs at h with hmin
      · injection h with h
        injection h with h1 h2
        subst h1
        have hfe := addScan_firstEmpty staker amount (getEntryTime curTime)
          ⟨staker, amount, 0, 0, getEntryTime curTime⟩ hz st.stakers i hscan
        have hs1 : occSum (st.stakers.set i ⟨staker, amount, 0, 0, getEntryTime curTime⟩)
            = occSum st.stakers + amount := hfe.1
        have hs2 : countOcc (st.stakers.set i ⟨staker, amount, 0, 0, getEntryTime curTime⟩)
            = countOcc st.stakers + 1 := hfe.2
        constructor
        · show st.totalAlgoStaked + amount
            = occSum (st.stakers.set i ⟨staker, amount, 0, 0, getEntryTime curTime⟩)
          omega
        · show st.numStakers + 1
            = countOcc (st.stakers.set i ⟨staker, amount, 0, 0, getEntryTime curTime⟩)
          omega
    | noSlot => rw [hscan] at h; exact absurd h (by simp)

lemma removeStake_wf {st : PoolState} {staker amount : Nat} {st' : PoolState} {out : RemoveOut}
    (hz : staker ≠ 0) (h : removeStake st staker amount = some (st', out))
    (hwf : wfLedger st) : wfLedger st' := by
  obtain ⟨hw1, hw2⟩ := hwf
  unfold removeStake at h
  cases hscan : removeScan staker amount st.minEntryStake st.stakers with
  | none => rw [hscan] at h; exact absurd h (by simp)
  | some o =>
    rw [hscan] at h
    injection h with h
    injection h with h1 h2
    subst h1
    obtain ⟨hs1, hs2⟩ := removeScan_some staker amount st.minEntryStake hz st.stakers o hscan
    constructor
    · show st.totalAlgoStaked - o.amountPaid = occSum o.stakers
      omega
    · show (if o.stakerRemoved then st.numStakers - 1 else st.numStakers) = countOcc o.stakers
      split_ifs at hs2 ⊢ <;> omega

lemma claimTokens_wf {st : PoolState} {staker : Nat} {st' : PoolState} {amt : Nat}
    (h : claimTokens st staker = some (st', amt)) (hwf : wfLedger st) : wfLedger st' := by
  obtain ⟨hw1, hw2⟩ := hwf
  unfold claimTokens at h
  cases hscan : claimScan staker st.stakers with
  | none => rw [hscan] at h; exact absurd h (by simp)
  | some p =>
    rw [hscan] at h
    injection h with h
    injection h with h1 h2
    subst h1
    obtain ⟨hs1, hs2⟩ := claimScan_some staker st.stakers p.1 p.2 (by rw [hscan])
    constructor
    · show st.totalAlgoStaked = occSum p.1
      omega
    · show st.numStakers = countOcc p.1
      omega

lemma passARun_occSum (env : EpochEnv) (st : PoolState) (p : EpochPrep) :
    occSum (passARun env st p).1 = occSum st.stakers + (passARun env st p).2.increased := by
  have h0 : occSum (passARun env st p).1 + 0
      = occSum st.stakers + (passARun env st p).2.increased :=
    passA_occSum st.totalAlgoStaked (env.config.payoutEveryXMins * 60) env.curTime
      st.stakers ⟨p.tokenAvail0, p.availForDist, 0, 0, 0⟩
  omega

lemma passARun_countOcc (env : EpochEnv) (st : PoolState) (p : EpochPrep) :
    countOcc (passARun env st p).1 = countOcc st.stakers :=
  passA_countOcc st.totalAlgoStaked (env.config.payoutEveryXMins * 60) env.curTime
    st.stakers ⟨p.tokenAvail0, p.availForDist, 0, 0, 0⟩

lemma passBRun_occSum (env : EpochEnv) (st : PoolState) (p : EpochPrep) :
    occSum (passBRun env st p).1
      = occSum (passARun env st p).1 + (passBRun env st p).2.increased := by
  unfold passBRun
  split_ifs with hpos
  · have h0 : occSum (passB (passARun env st p).2.tokenAvail (passARun env st p).2.algoAvail
        (newPoolTotalStake env st p) (env.config.payoutEveryXMins * 60) env.curTime
        (passARun env st p).1 ⟨0, 0⟩).1 + 0
        = occSum (passARun env st p).1
          + (passB (passARun env st p).2.tokenAvail (passARun env st p).2.algoAvail
              (newPoolTotalStake env st p) (env.config.payoutEveryXMins * 60) env.curTime
              (passARun env st p).1 ⟨0, 0⟩).2.increased :=
      passB_occSum (passARun env st p).2.tokenAvail (passARun env st p).2.algoAvail
        (newPoolTotalStake env st p) (env.config.payoutEveryXMins * 60) env.curTime
        (passARun env st p).1 ⟨0, 0⟩
    omega
  · simp

lemma passBRun_countOcc (env : EpochEnv) (st : PoolState) (p : EpochPrep) :
    countOcc (passBRun env st p).1 = countOcc (passARun env st p).1 := by
  unfold passBRun
  split_ifs with hpos
  · exact passB_countOcc _ _ _ _ _ _ _
  · rfl

lemma epochBalanceUpdate_wf {env : EpochEnv} {st st' : PoolState} {sum : EpochSummary}
    (h : epochBalanceUpdate env st = some (st', sum)) (hwf : wfLedger st) :
    wfLedger st' := by
  obtain ⟨hw1, hw2⟩ := hwf
  obtain ⟨p, hprep, hdist⟩ := epochBalanceUpdate_eq h
  unfold epochDistribute at hdist
  injection hdist with h1 h2
  subst h1
  have hAocc := passARun_occSum env st p
  have hAcnt := passARun_countOcc env st p
  have hBocc := passBRun_occSum env st p
  have hBcnt := passBRun_countOcc env st p
  constructor
  · show st.totalAlgoStaked + (passARun env st p).2.increased + (passBRun env st p).2.increased
      = occSum (passBRun env st p).1
    omega
  · show st.numStakers = countOcc (passBRun env st p).1
    omega

lemma wf_applyOp (op : PoolOp) (st : PoolState) (hop : opOk op) (hwf : wfLedger st) :
    wfLedger (applyOp op st) := by
  cases op with
  | add staker amount curTime =>
    simp only [applyOp]
    cases hr : addStake st staker amount curTime with
    | none => exact hwf
    | some r => exact @addStake_wf st staker amount curTime r.1 r.2 (by rw [hr]) hwf
  | remove staker amount =>
    simp only [applyOp]
    cases hr : removeStake st staker amount with
    | none => exact hwf
    | some r => exact @removeStake_wf st staker amount r.1 r.2 hop (by rw [hr]) hwf
  | claim staker =>
    simp only [applyOp]
    cases hr : claimTokens st staker with
    | none => exact hwf
    | some r => exact @claimTokens_wf st staker r.1 r.2 (by rw [hr]) hwf
  | epoch env =>
    simp only [applyOp]
    cases hr : epochBalanceUpdate env st with
    | none => exact hwf
    | some r => exact @epochBalanceUpdate_wf env st r.1 r.2 (by rw [hr]) hwf

lemma wf_runOps (ops : List PoolOp) :
    ∀ st : PoolState, wfLedger st → (∀ op ∈ ops, opOk op) → wfLedger (runOps st ops) := by
  induction ops with
  | nil => intro st hwf _; exact hwf
  | cons op rest ih =>
    intro st hwf hops
    exact ih (applyOp op st)
      (wf_applyOp op st (hops op (List.mem_cons_self _ _)) hwf)
      (fun o ho => hops o (List.mem_cons_of_mem _ ho))

lemma wf_initialPool (v p m t : Nat) : wfLedger (initialPool v p m t) :=
  ⟨rfl, rfl⟩


/-! ### Claim theorems: ledger integrity and duplicate occupancy -/

/-- C2: after every sequence of addStake, removeStake, claimTokens and
epochBalanceUpdate operations on a freshly created pool (failed operations
roll back; remove/claim senders are signing accounts, never the zero
address), the pool's totalAlgoStaked equals the sum of the balances of the
occupied slots and numStakers equals the number of occupied slots. -/
theorem ledger_integrity (v p m t : Nat) (ops : List PoolOp)
    (hops : ∀ op ∈ ops, opOk op) :
    wfLedger (runOps (initialPool v p m t) ops) :=
  wf_runOps ops _ (wf_initialPool v p m t) hops

theorem ledger_integrity_witness :
    wfLedger (runOps (initialPool 1 1 1000000 0) opsLedgerW) :=
  ledger_integrity 1 1 1000000 0 opsLedgerW (by decide)

/-- C1 (code bug): the addStake scan breaks at the first empty slot, so a
staker whose existing slot lies after an empty slot is given a second slot.
After the trace opsDup (staker 7 fills slot 0, staker 9 fills slot 1,
staker 7 fully unstakes, staker 9 adds stake again) the first two slots are
both occupied by staker 9 — duplicate occupancy in a reachable state, and
the second addStake for staker 9 created a fresh slot instead of increasing
the existing one. -/
theorem duplicate_slot_reachable :
    ((runOps (initialPool 1 1 1000000 0) opsDup).stakers.take 2).map (fun s => s.account)
        = [9, 9] ∧
      ((runOps (initialPool 1 1 1000000 0) opsDup).stakers.take 2).map (fun s => s.balance)
        = [1500000, 2000000] ∧
      (runOps (initialPool 1 1 1000000 0) opsDup).numStakers = 2 ∧
      (∀ op ∈ opsDup, opOk op) := by decide


/-! ### epochPrep lemmas -/

lemma epochPrep_total {env : EpochEnv} {st : PoolState} {p : EpochPrep}
    (h : epochPrep env st = some p) :
    p.surplus = env.balance - st.totalAlgoStaked - env.minBalance ∧
    p.commission + p.excess + p.availForDist = p.surplus ∧
    p.tokenAvail0 = tokenRewardAvailCalc env.config env.poolOneTokenBalance
      env.vstate.rewardTokenHeldBack env.poolPctOfWhole := by
  simp only [epochPrep] at h
  split_ifs at h with h1 h2 h3 h4 h5 h6 h7
  · -- saturated branch
    injection h with h
    subst h
    refine ⟨rfl, ?_, rfl⟩
    show 0 + ((env.balance - st.totalAlgoStaked - env.minBalance)
        - (env.balance - st.totalAlgoStaked - env.minBalance)
            * algoSaturationLevel env.maxValidatorPctOfOnline / env.vstate.totalAlgoStaked)
      + (env.balance - st.totalAlgoStaked - env.minBalance)
          * algoSaturationLevel env.maxValidatorPctOfOnline / env.vstate.totalAlgoStaked
      = env.balance - st.totalAlgoStaked - env.minBalance
    have hd : (env.balance - st.totalAlgoStaked - env.minBalance)
        * algoSaturationLevel env.maxValidatorPctOfOnline / env.vstate.totalAlgoStaked
        ≤ env.balance - st.totalAlgoStaked - env.minBalance := by
      apply div_le_of_le_mul
      calc (env.balance - st.totalAlgoStaked - env.minBalance)
            * algoSaturationLevel env.maxValidatorPctOfOnline
          ≤ (env.balance - st.totalAlgoStaked - env.minBalance) * env.vstate.totalAlgoStaked :=
            Nat.mul_le_mul_left _ (Nat.le_of_lt h5)
        _ = env.vstate.totalAlgoStaked * (env.balance - st.totalAlgoStaked - env.minBalance) :=
            Nat.mul_comm _ _
    omega
  · -- commission branch
    injection h with h
    subst h
    refine ⟨rfl, ?_, rfl⟩
    show (env.balance - st.totalAlgoStaked - env.minBalance) * env.config.percentToValidator / 1000000
        + 0 + ((env.balance - st.totalAlgoStaked - env.minBalance)
            - (env.balance - st.totalAlgoStaked - env.minBalance)
                * env.config.percentToValidator / 1000000)
      = env.balance - st.totalAlgoStaked - env.minBalance
    omega
  · -- zero-commission branch
    injection h with h
    subst h
    refine ⟨rfl, ?_, rfl⟩
    show 0 + 0 + (env.balance - st.totalAlgoStaked - env.minBalance)
      = env.balance - st.totalAlgoStaked - env.minBalance
    omega

lemma epochPrep_saturated {env : EpochEnv} {st : PoolState} {p : EpochPrep}
    (h : epochPrep env st = some p)
    (hsat : algoSaturationLevel env.maxValidatorPctOfOnline < env.vstate.totalAlgoStaked) :
    p.commission = 0 ∧
    p.availForDist = p.surplus * algoSaturationLevel env.maxValidatorPctOfOnline
      / env.vstate.totalAlgoStaked ∧
    p.excess = p.surplus - p.availForDist := by
  simp only [epochPrep] at h
  split_ifs at h with h1 h2 h3 h4
  injection h with h
  subst h
  exact ⟨rfl, rfl, rfl⟩

lemma tokenRewardAvailCalc_pos {cfg : ValidatorConfig} {poolOneBal heldBack poolPct : Nat}
    (h : 0 < tokenRewardAvailCalc cfg poolOneBal heldBack poolPct) :
    cfg.rewardTokenId ≠ 0 ∧ cfg.rewardPerPayout ≤ poolOneBal - heldBack ∧
    heldBack < poolOneBal := by
  unfold tokenRewardAvailCalc at h
  split_ifs at h with hc
  · refine ⟨hc.1, hc.2, ?_⟩
    rcases Nat.eq_zero_or_pos cfg.rewardPerPayout with h0 | h0
    · rw [h0] at h
      simp at h
    · have := hc.2
      omega
  · exact absurd h (by simp)

/-! ### Claim theorems: epoch gating, saturation, reward floor, token budget -/

/-- C3 (amended): the epoch-interval check applies to every call of
epochBalanceUpdate, including the first one after creation (the baseline is
the creation time, which createApplication records in lastPayout): whenever
now minus the recorded last payout is below payoutEveryXMins * 60 seconds
the call fails with no state change; every successful call sets lastPayout
to now and increments epochNumber by exactly 1, even when all payouts are
zero. -/
theorem epoch_gating (env : EpochEnv) (st : PoolState) (lp : Nat)
    (hlp : st.lastPayout = some lp) :
    (lp ≤ env.curTime → env.curTime - lp < env.config.payoutEveryXMins * 60 →
      epochBalanceUpdate env st = none) ∧
    (∀ st' sum, epochBalanceUpdate env st = some (st', sum) →
      st'.lastPayout = some env.curTime ∧ st'.epochNumber = st.epochNumber + 1) ∧
    (∀ v pid m t, (initialPool v pid m t).lastPayout = some t) := by
  refine ⟨?_, ?_, fun v pid m t => rfl⟩
  · intro hle hlt
    have hg : gatePasses st.lastPayout env.curTime (env.config.payoutEveryXMins * 60)
        = false := by
      rw [hlp]
      simp only [gatePasses, Bool.and_eq_false_iff, decide_eq_false_iff_not]
      exact Or.inr (by omega)
    have hprep : epochPrep env st = none := by
      simp only [epochPrep]
      rw [if_pos hg]
    unfold epochBalanceUpdate
    rw [hprep]
  · intro st' sum h
    obtain ⟨p, hprep, hdist⟩ := epochBalanceUpdate_eq h
    unfold epochDistribute at hdist
    injection hdist with hst hsum
    subst hst
    exact ⟨rfl, rfl⟩

/-- C3 counterexample (to the claim as stated): a freshly created pool
(epoch number 0, no epochBalanceUpdate ever ran) whose very first
epochBalanceUpdate call arrives 30 seconds after creation with a 60-second
epoch configured: the call fails — the epoch-interval check is NOT skipped
on the very first call, because createApplication already recorded the
baseline in lastPayout. -/
theorem first_call_gating_counterexample :
    stGateCx.epochNumber = 0 ∧ stGateCx.lastPayout = some 1000 ∧
    envGateCx.curTime - 1000 < envGateCx.config.payoutEveryXMins * 60 ∧
    epochBalanceUpdate envGateCx stGateCx = none := by decide

theorem epoch_gating_witness :
    epochBalanceUpdate envGateA stGateA = none ∧
    resGateB.1.lastPayout = some envGateB.curTime ∧
    resGateB.1.epochNumber = stGateA.epochNumber + 1 := by
  refine ⟨?_, ?_⟩
  · exact (epoch_gating envGateA stGateA 1000 rfl).1 (by decide) (by decide)
  · exact (epoch_gating envGateB stGateA 1000 rfl).2.1 resGateB.1 resGateB.2 (by decide)

/-- C5: when the validator's aggregate stake exceeds the saturation level
(the configured per-mille fraction of the total online stake), a successful
epochBalanceUpdate pays zero validator commission, sends surplus minus
floor(surplus * saturationLevel / aggregateStake) to the fee sink, and only
the diminished remainder floor(surplus * saturationLevel / aggregateStake)
enters the staker distribution; the surplus is balance minus tracked stake
minus the minimum balance. -/
theorem saturation_dampening (env : EpochEnv) (st st' : PoolState) (sum : EpochSummary)
    (hrun : epochBalanceUpdate env st = some (st', sum))
    (hsat : algoSaturationLevel env.maxValidatorPctOfOnline < env.vstate.totalAlgoStaked) :
    sum.validatorCommissionPaidOut = 0 ∧
    sum.algoAvailForDistribution = sum.algoRewardAvailStart
      * algoSaturationLevel env.maxValidatorPctOfOnline / env.vstate.totalAlgoStaked ∧
    sum.excessToFeeSink = sum.algoRewardAvailStart - sum.algoAvailForDistribution ∧
    sum.algoRewardAvailStart = env.balance - st.totalAlgoStaked - env.minBalance := by
  obtain ⟨p, hprep, hdist⟩ := epochBalanceUpdate_eq hrun
  unfold epochDistribute at hdist
  injection hdist with hst hsum
  subst hsum
  obtain ⟨hc, ha, he⟩ := epochPrep_saturated hprep hsat
  obtain ⟨hs, -, -⟩ := epochPrep_total hprep
  exact ⟨hc, ha, he, hs⟩

theorem saturation_dampening_witness :
    resSatW.2.validatorCommissionPaidOut = 0 ∧
    resSatW.2.algoAvailForDistribution = resSatW.2.algoRewardAvailStart
      * algoSaturationLevel envSatW.maxValidatorPctOfOnline / envSatW.vstate.totalAlgoStaked ∧
    resSatW.2.excessToFeeSink
      = resSatW.2.algoRewardAvailStart - resSatW.2.algoAvailForDistribution ∧
    resSatW.2.algoRewardAvailStart
      = envSatW.balance - stSatW.totalAlgoStaked - envSatW.minBalance :=
  saturation_dampening envSatW stSatW resSatW.1 resSatW.2 (by decide) (by decide)

/-- C9: when the token reward available for this epoch is zero (including
every validator without a reward token configured), epochBalanceUpdate
fails unless the available algo reward exceeds 1 ALGO (1,000,000 microAlgo);
when a nonzero token reward is available, no algo minimum is enforced: the
call succeeds for any surplus, provided the epoch gate and the balance
arithmetic allow it at all. -/
theorem min_reward_floor (env : EpochEnv) (st : PoolState) :
    (tokenRewardAvailCalc env.config env.poolOneTokenBalance
        env.vstate.rewardTokenHeldBack env.poolPctOfWhole = 0 →
      env.balance - st.totalAlgoStaked - env.minBalance ≤ 1000000 →
      epochBalanceUpdate env st = none) ∧
    (0 < tokenRewardAvailCalc env.config env.poolOneTokenBalance
        env.vstate.rewardTokenHeldBack env.poolPctOfWhole →
      gatePasses st.lastPayout env.curTime (env.config.payoutEveryXMins * 60) = true →
      st.totalAlgoStaked + env.minBalance ≤ env.balance →
      env.config.percentToValidator ≤ 1000000 →
      (epochBalanceUpdate env st).isSome = true) := by
  constructor
  · intro htok hS
    have hprep : epochPrep env st = none := by
      simp only [epochPrep]
      split_ifs with h1 h2 h3 h4 h5 h6 h7 <;> try rfl
      all_goals exact absurd ⟨htok, hS⟩ h4
    unfold epochBalanceUpdate
    rw [hprep]
  · intro htok hgate hbal hpct
    have hprep : (epochPrep env st).isSome = true := by
      obtain ⟨hid, hle, hheld⟩ := tokenRewardAvailCalc_pos htok
      simp only [epochPrep]
      split_ifs with h1 h2 h3 h4 h5 h6 h7 <;> try rfl
      · rw [hgate] at h1
        exact absurd h1 (by simp)
      · exact absurd h2 (by omega)
      · exact absurd h3 (fun hh => by omega)
      · exact absurd h4 (fun hh => by omega)
      · -- commission would exceed the reward: impossible for pct ≤ 1000000
        have hmul : (env.balance - st.totalAlgoStaked - env.minBalance)
            * env.config.percentToValidator
            ≤ (env.balance - st.totalAlgoStaked - env.minBalance) * 1000000 :=
          Nat.mul_le_mul_left _ hpct
        exact absurd h7 (by omega)
    unfold epochBalanceUpdate
    cases hp : epochPrep env st with
    | none => rw [hp] at hprep; exact absurd hprep (by simp)
    | some p => rfl

theorem min_reward_floor_witness :
    epochBalanceUpdate envFloorA stFloorW = none ∧
    (epochBalanceUpdate envFloorB stFloorW).isSome = true := by
  constructor
  · exact (min_reward_floor envFloorA stFloorW).1 (by decide) (by decide)
  · exact (min_reward_floor envFloorB stFloorW).2 (by decide) (by decide) (by decide) (by decide)

/-- C10: for a token-eligible validator a successful epochBalanceUpdate
computes this pool's token reward budget as zero unless pool 1's reward
token holding minus the registry's held-back amount reaches the configured
per-payout amount, and otherwise as floor(rewardPerPayout *
thisPoolPctOfWhole / 1,000,000) from the snapshotted percentage (never from
the raw token balance); moreover when that budget is zero no token is paid
out and no slot's reward-token balance changes. -/
theorem token_reward_budget (env : EpochEnv) (st st' : PoolState) (sum : EpochSummary)
    (hrun : epochBalanceUpdate env st = some (st', sum)) :
    sum.tokenRewardAvailStart
      = (if env.config.rewardTokenId ≠ 0 ∧
            env.config.rewardPerPayout
              ≤ env.poolOneTokenBalance - env.vstate.rewardTokenHeldBack
         then env.config.rewardPerPayout * env.poolPctOfWhole / 1000000 else 0) ∧
    (sum.tokenRewardAvailStart = 0 →
      sum.tokenRewardPaidOut = 0 ∧
      st'.stakers.map (fun s => s.rewardTokenBalance)
        = st.stakers.map (fun s => s.rewardTokenBalance)) := by
  obtain ⟨p, hprep, hdist⟩ := epochBalanceUpdate_eq hrun
  unfold epochDistribute at hdist
  injection hdist with hst hsum
  subst hst hsum
  obtain ⟨-, -, htok⟩ := epochPrep_total hprep
  constructor
  · exact htok
  · intro hz
    have hz' : p.tokenAvail0 = 0 := hz
    have hA := passA_tokenZero st.totalAlgoStaked (env.config.payoutEveryXMins * 60)
      env.curTime st.stakers ⟨p.tokenAvail0, p.availForDist, 0, 0, 0⟩ hz'
    obtain ⟨hA1, hA2, hA3⟩ := hA
    have hA1' : (passARun env st p).2.tokenAvail = 0 := hA1
    have hA2' : (passARun env st p).2.tokenPaid = 0 := hA2
    have hA3' : (passARun env st p).1.map (fun s => s.rewardTokenBalance)
        = st.stakers.map (fun s => s.rewardTokenBalance) := hA3
    unfold passBRun
    split_ifs with hpos
    · rw [hA1']
      have hB := passB_tokenZero (passARun env st p).2.algoAvail
        (newPoolTotalStake env st p) (env.config.payoutEveryXMins * 60) env.curTime
        (passARun env st p).1 ⟨0, 0⟩
      obtain ⟨hB1, hB2⟩ := hB
      constructor
      · show (passARun env st p).2.tokenPaid
          + (passB 0 (passARun env st p).2.algoAvail (newPoolTotalStake env st p)
              (env.config.payoutEveryXMins * 60) env.curTime
              (passARun env st p).1 ⟨0, 0⟩).2.tokenPaid = 0
        have hB1' : (passB 0 (passARun env st p).2.algoAvail (newPoolTotalStake env st p)
            (env.config.payoutEveryXMins * 60) env.curTime
            (passARun env st p).1 ⟨0, 0⟩).2.tokenPaid = 0 := hB1
        omega
      · rw [hB2, hA3']
    · constructor
      · show (passARun env st p).2.tokenPaid + 0 = 0
        omega
      · exact hA3'

theorem token_reward_budget_witness :
    resTokW.2.tokenRewardAvailStart
      = (if envTokW.config.rewardTokenId ≠ 0 ∧
            envTokW.config.rewardPerPayout
              ≤ envTokW.poolOneTokenBalance - envTokW.vstate.rewardTokenHeldBack
         then envTokW.config.rewardPerPayout * envTokW.poolPctOfWhole / 1000000 else 0) ∧
    (resTokW.2.tokenRewardAvailStart = 0 →
      resTokW.2.tokenRewardPaidOut = 0 ∧
      resTokW.1.stakers.map (fun s => s.rewardTokenBalance)
        = stFloorW.stakers.map (fun s => s.rewardTokenBalance)) :=
  token_reward_budget envTokW stFloorW resTokW.1 resTokW.2 (by decide)


/-! ### removeStake boundary lemmas and claim -/

lemma removeScan_fail (staker amount minEntry : Nat) (s0 : StakedInfo)
    (post : List StakedInfo) (hacc : s0.account = staker) (hne : amount ≠ 0)
    (hle : amount ≤ s0.balance) (hnz : s0.balance - amount ≠ 0)
    (hlt : s0.balance - amount < minEntry) :
    ∀ pre, (∀ s ∈ pre, s.account ≠ staker) →
      removeScan staker amount minEntry (pre ++ s0 :: post) = none := by
  intro pre
  induction pre with
  | nil =>
    intro _
    simp only [List.nil_append, removeScan, if_pos hacc, if_neg hne]
    rw [if_neg (by omega), if_neg (by rintro (h | h) <;> omega)]
  | cons x pre ih =>
    intro hpre
    simp only [List.cons_append, List.append_eq, removeScan,
      if_neg (hpre x (List.mem_cons_self _ _))]
    rw [ih (fun s hs => hpre s (List.mem_cons_of_mem _ hs))]

lemma removeScan_full (staker amount minEntry : Nat) (s0 : StakedInfo)
    (post : List StakedInfo) (hacc : s0.account = staker)
    (hful : amount = 0 ∨ amount = s0.balance) :
    ∀ pre, (∀ s ∈ pre, s.account ≠ staker) →
      removeScan staker amount minEntry (pre ++ s0 :: post)
        = some ⟨pre ++ clearedSlot s0 :: post, s0.balance, s0.rewardTokenBalance, true⟩ := by
  intro pre
  induction pre with
  | nil =>
    intro _
    have hamt : (if amount = 0 then s0.balance else amount) = s0.balance := by
      rcases hful with rfl | rfl
      · rw [if_pos rfl]
      · split_ifs with h
        · rw [h]
        · rfl
    simp only [List.nil_append, removeScan, if_pos hacc, hamt]
    rw [if_neg (Nat.lt_irrefl _), if_pos (Or.inl (Nat.sub_self _)),
      if_pos (Nat.sub_self _)]
    rfl
  | cons x pre ih =>
    intro hpre
    simp only [List.cons_append, List.append_eq, removeScan,
      if_neg (hpre x (List.mem_cons_self _ _))]
    rw [ih (fun s hs => hpre s (List.mem_cons_of_mem _ hs))]

/-- C7: for a staker whose first matching slot holds balance b, removeStake
with an amount that would leave a nonzero remainder strictly below
minEntryStake always fails with no state change, while removing exactly the
full balance (amount = b, or amount = 0 meaning withdraw everything) always
succeeds, pays the staker b, zeroes the slot's account (freeing it) and
decrements numStakers by one. -/
theorem min_stake_boundary (st : PoolState) (staker : Nat) (pre post : List StakedInfo)
    (s0 : StakedInfo) (hsplit : st.stakers = pre ++ s0 :: post)
    (hpre : ∀ s ∈ pre, s.account ≠ staker) (hacc : s0.account = staker) :
    (∀ amount, amount ≠ 0 → amount ≤ s0.balance → s0.balance - amount ≠ 0 →
      s0.balance - amount < st.minEntryStake → removeStake st staker amount = none) ∧
    (∀ amount, amount = 0 ∨ amount = s0.balance →
      removeStake st staker amount
        = some ({ st with
                    stakers := pre ++ clearedSlot s0 :: post,
                    totalAlgoStaked := st.totalAlgoStaked - s0.balance,
                    numStakers := st.numStakers - 1 },
                ⟨pre ++ clearedSlot s0 :: post,
                 s0.balance, s0.rewardTokenBalance, true⟩)) := by
  constructor
  · intro amount h1 h2 h3 h4
    unfold removeStake
    rw [hsplit, removeScan_fail staker amount st.minEntryStake s0 post hacc h1 h2 h3 h4 pre hpre]
  · intro amount hful
    unfold removeStake
    rw [hsplit, removeScan_full staker amount st.minEntryStake s0 post hacc hful pre hpre]
    rfl

theorem min_stake_boundary_witness :
    removeStake stRemW 7 1500000 = none ∧
    removeStake stRemW 7 0 = some (resRemW.1, resRemW.2) ∧
    resRemW.2.amountPaid = 2000000 ∧ resRemW.2.stakerRemoved = true ∧
    resRemW.1.numStakers = 0 ∧ resRemW.2.tokenRemoved = 3 := by
  have h := min_stake_boundary stRemW 7 [] (List.replicate 79 emptySlot)
    ⟨7, 2000000, 5, 3, 100⟩ rfl (by simp) rfl
  refine ⟨h.1 1500000 (by decide) (by decide) (by decide) (by decide), ?_,
    by decide, by decide, by decide, by decide⟩
  exact h.2 0 (Or.inl rfl)

/-! ### Authorization claim -/

/-- C8 counterexample (to the claim as stated): a caller that is the
creating validator contract's application address but neither the owner nor
the manager the registry reports succeeds in calling goOffline. -/
theorem registry_goOffline_counterexample :
    authCx.sender ≠ authCx.ownerFromRegistry ∧
    authCx.sender ≠ authCx.managerFromRegistry ∧
    goOffline authCx = some () := by decide

/-- C8 (amended): goOnline, updateAlgodVer and linkToNFD fail for any caller
that is neither the owner nor the manager currently reported by the
registry, regardless of every other argument; goOffline fails likewise
except that the creating validator contract's own address is additionally
allowed. The owner/manager pair is obtained from the registry on every call
(it is a per-call input; the pool state stores neither). -/
theorem owner_manager_auth (env : AuthEnv)
    (hO : env.sender ≠ env.ownerFromRegistry) (hM : env.sender ≠ env.managerFromRegistry) :
    (∀ votePK selPK spPK vf vl vkd, goOnline env votePK selPK spPK vf vl vkd = none) ∧
    (∀ st ver, updateAlgodVer env st ver = none) ∧
    (∀ nfdId nfdName, linkToNFD env nfdId nfdName = none) ∧
    (env.sender ≠ env.registryAppAddress → goOffline env = none) := by
  have hauth : isOwnerOrManagerCaller env = false := by
    simp [isOwnerOrManagerCaller, hO, hM]
  refine ⟨fun _ _ _ _ _ _ => ?_, fun _ _ => ?_, fun _ _ => ?_, fun hR => ?_⟩
  · simp [goOnline, hauth]
  · simp [updateAlgodVer, hauth]
  · simp [linkToNFD, hauth]
  · simp [goOffline, hauth, hR]

theorem owner_manager_auth_witness :
    goOnline authW "" "" "" 0 0 0 = none ∧
    updateAlgodVer authW (initialPool 1 1 1000000 0) "3.22.0" = none ∧
    linkToNFD authW 5 "pool.algo" = none ∧
    goOffline authW = none := by
  have h := owner_manager_auth authW (by decide) (by decide)
  exact ⟨h.1 "" "" "" 0 0 0, h.2.1 _ _, h.2.2.1 5 "pool.algo", h.2.2.2 (by decide)⟩


/-! ### Reward conservation claim -/

/-- C4 counterexample (to the claim as stated): a pool whose only staker
joined mid-epoch. Surplus is 2,000,000 microAlgo, commission and fee-sink
excess are zero, but only 1,000,000 is credited (pass A time-weights the
lone staker at 50 percent and pass B has nobody to pay), so the shortfall
is 1,000,000 microAlgo — far more than one minimum unit per staker
(numStakers = 1) — and it simply stays in the pool. -/
theorem reward_conservation_counterexample :
    (epochBalanceUpdate envConsCx stConsCx).map
        (fun r => (r.2.algoRewardAvailStart,
          r.2.validatorCommissionPaidOut + r.2.excessToFeeSink + r.2.increasedStake))
      = some (2000000, 1000000) ∧
    stConsCx.numStakers = 1 ∧ wfLedger stConsCx ∧
    0 < envConsCx.config.payoutEveryXMins := by decide

/-- C4 (amended): for a successful epochBalanceUpdate on a ledger-consistent
pool with a configured epoch length and at least one staker present for the
whole epoch, commission + fee-sink excess + credited stake never exceeds the
surplus S = balance − totalAlgoStaked − minBalance, and falls short of S by
at most numStakers minimum units (the shortfall stays in the pool for the
next epoch). Without a full-epoch staker pass B distributes nothing and the
shortfall can be arbitrarily large (see the counterexample). -/
theorem reward_conservation (env : EpochEnv) (st st' : PoolState) (sum : EpochSummary)
    (hwf : wfLedger st) (hm : 0 < env.config.payoutEveryXMins)
    (hrun : epochBalanceUpdate env st = some (st', sum))
    (hfull : 0 < fullSum (env.config.payoutEveryXMins * 60) env.curTime st.stakers) :
    sum.algoRewardAvailStart = env.balance - st.totalAlgoStaked - env.minBalance ∧
    sum.validatorCommissionPaidOut + sum.excessToFeeSink + sum.increasedStake
      ≤ sum.algoRewardAvailStart ∧
    sum.algoRewardAvailStart
      ≤ sum.validatorCommissionPaidOut + sum.excessToFeeSink + sum.increasedStake
        + st.numStakers := by
  obtain ⟨hw1, hw2⟩ := hwf
  obtain ⟨p, hprep, hdist⟩ := epochBalanceUpdate_eq hrun
  unfold epochDistribute at hdist
  injection hdist with hst hsum
  subst hst hsum
  obtain ⟨hs, htot, -⟩ := epochPrep_total hprep
  have he : 0 < env.config.payoutEveryXMins * 60 := by omega
  have hb : ∀ x ∈ st.stakers, x.account ≠ 0 → x.balance ≤ st.totalAlgoStaked := by
    intro x hx hocc
    rw [hw1]
    exact balance_le_occSum hx hocc
  have hA1 : (passARun env st p).2.algoAvail + (passARun env st p).2.increased
      = p.availForDist + 0 :=
    passA_algoAvail st.totalAlgoStaked (env.config.payoutEveryXMins * 60) env.curTime
      st.stakers ⟨p.tokenAvail0, p.availForDist, 0, 0, 0⟩ hb
  have hA2 : (passARun env st p).2.partialTotal
      = 0 + partialSum (env.config.payoutEveryXMins * 60) env.curTime st.stakers :=
    passA_partialTotal st.totalAlgoStaked (env.config.payoutEveryXMins * 60) env.curTime
      st.stakers ⟨p.tokenAvail0, p.availForDist, 0, 0, 0⟩
  have hA3 : fullSum (env.config.payoutEveryXMins * 60) env.curTime (passARun env st p).1
      = fullSum (env.config.payoutEveryXMins * 60) env.curTime st.stakers :=
    passA_fullSum (env.config.payoutEveryXMins * 60) env.curTime st.totalAlgoStaked
      st.stakers ⟨p.tokenAvail0, p.availForDist, 0, 0, 0⟩
  have hA4 : countFull (env.config.payoutEveryXMins * 60) env.curTime (passARun env st p).1
      = countFull (env.config.payoutEveryXMins * 60) env.curTime st.stakers :=
    passA_countFull (env.config.payoutEveryXMins * 60) env.curTime st.totalAlgoStaked
      st.stakers ⟨p.tokenAvail0, p.availForDist, 0, 0, 0⟩
  have hsplit := occSum_split (env.config.payoutEveryXMins * 60) env.curTime st.stakers
  have hN : newPoolTotalStake env st p
      = fullSum (env.config.payoutEveryXMins * 60) env.curTime st.stakers := by
    unfold newPoolTotalStake
    omega
  have hNpos : 0 < newPoolTotalStake env st p := by omega
  have hrbinc : (passBRun env st p).2.increased
      = passBCreditSum (passARun env st p).2.algoAvail (newPoolTotalStake env st p)
          (env.config.payoutEveryXMins * 60) env.curTime (passARun env st p).1 := by
    unfold passBRun
    rw [if_pos hNpos]
    have h0 : (passB (passARun env st p).2.tokenAvail (passARun env st p).2.algoAvail
        (newPoolTotalStake env st p) (env.config.payoutEveryXMins * 60) env.curTime
        (passARun env st p).1 ⟨0, 0⟩).2.increased
        = 0 + passBCreditSum (passARun env st p).2.algoAvail (newPoolTotalStake env st p)
            (env.config.payoutEveryXMins * 60) env.curTime (passARun env st p).1 :=
      passB_increased _ _ _ _ _ (passARun env st p).1 ⟨0, 0⟩
    omega
  obtain ⟨hbd1, hbd2⟩ := passBCreditSum_bounds (passARun env st p).2.algoAvail
    (newPoolTotalStake env st p) (env.config.payoutEveryXMins * 60) env.curTime he
    (passARun env st p).1
  rw [hA3, ← hN] at hbd1 hbd2
  have hcancel : newPoolTotalStake env st p * (passARun env st p).2.algoAvail
      / newPoolTotalStake env st p = (passARun env st p).2.algoAvail :=
    Nat.mul_div_cancel_left _ hNpos
  rw [hcancel] at hbd1 hbd2
  have hcnt : countFull (env.config.payoutEveryXMins * 60) env.curTime st.stakers
      ≤ st.numStakers := by
    have := countFull_le_countOcc (env.config.payoutEveryXMins * 60) env.curTime st.stakers
    omega
  refine ⟨hs, ?_, ?_⟩
  · show p.commission + p.excess
        + ((passARun env st p).2.increased + (passBRun env st p).2.increased) ≤ p.surplus
    omega
  · show p.surplus ≤ p.commission + p.excess
        + ((passARun env st p).2.increased + (passBRun env st p).2.increased) + st.numStakers
    omega

theorem reward_conservation_witness :
    resConsW.2.algoRewardAvailStart
      = envConsW.balance - stConsW.totalAlgoStaked - envConsW.minBalance ∧
    resConsW.2.validatorCommissionPaidOut + resConsW.2.excessToFeeSink
        + resConsW.2.increasedStake ≤ resConsW.2.algoRewardAvailStart ∧
    resConsW.2.algoRewardAvailStart
      ≤ resConsW.2.validatorCommissionPaidOut + resConsW.2.excessToFeeSink
          + resConsW.2.increasedStake + stConsW.numStakers :=
  reward_conservation envConsW stConsW resConsW.1 resConsW.2 (by decide) (by decide)
    (by decide) (by decide)


/-! ### Two-pass spec equivalence -/

lemma passACredit_eq (T0 e cur avail : Nat) (s : StakedInfo) :
    passACredit T0 e cur avail s
      = s.balance * avail * ((cur - s.entryTime) * 1000 / e) / (T0 * 1000) := by
  unfold passACredit
  split_ifs with h
  · rfl
  · have : avail = 0 := by omega
    subst this
    simp

lemma passBCredit_eq (avail N : Nat) (s : StakedInfo) :
    passBCredit avail N s = s.balance * avail / N := by
  unfold passBCredit
  split_ifs with h
  · rfl
  · have : avail = 0 := by omega
    subst this
    simp

lemma passA_spec (T0 e cur : Nat) :
    ∀ (l : List StakedInfo) (tv av tp inc pt : Nat),
      passA T0 e cur l ⟨tv, av, tp, inc, pt⟩
        = (creditSlots l (specPassACredits T0 e cur av l).1 (specPassACredits T0 e cur tv l).1,
           ⟨(specPassACredits T0 e cur tv l).2.1,
            (specPassACredits T0 e cur av l).2.1,
            tp + listSum (specPassACredits T0 e cur tv l).1,
            inc + listSum (specPassACredits T0 e cur av l).1,
            pt + (specPassACredits T0 e cur av l).2.2⟩) := by
  intro l
  induction l with
  | nil =>
    intro tv av tp inc pt
    simp [passA, specPassACredits, creditSlots, listSum]
  | cons s rest ih =>
    intro tv av tp inc pt
    simp only [passA]
    by_cases h1 : s.account = 0
    · simp only [passAStep, if_pos h1]
      rw [ih tv av tp inc pt]
      simp only [specPassACredits, if_neg (not_not_intro h1)]
      simp only [creditSlots, listSum, Prod.mk.injEq, PassAAcc.mk.injEq, List.cons.injEq]
      repeat' apply And.intro
      all_goals first | rfl | trivial | omega
    · by_cases h2 : cur < s.entryTime
      · simp only [passAStep, if_neg h1, if_pos h2]
        rw [ih tv av tp inc (pt + s.balance)]
        simp only [specPassACredits, if_pos h1, if_pos h2]
        simp only [creditSlots, listSum, Prod.mk.injEq, PassAAcc.mk.injEq, List.cons.injEq]
        repeat' apply And.intro
        all_goals first | rfl | trivial | omega
      · by_cases h3 : cur - s.entryTime < e
        · simp only [passAStep, if_neg h1, if_neg h2, if_pos h3]
          rw [passACredit_eq T0 e cur av s, passACredit_eq T0 e cur tv s]
          rw [ih (tv - s.balance * tv * ((cur - s.entryTime) * 1000 / e) / (T0 * 1000))
                (av - s.balance * av * ((cur - s.entryTime) * 1000 / e) / (T0 * 1000))
                (tp + s.balance * tv * ((cur - s.entryTime) * 1000 / e) / (T0 * 1000))
                (inc + s.balance * av * ((cur - s.entryTime) * 1000 / e) / (T0 * 1000))
                (pt + s.balance)]
          simp only [specPassACredits, if_pos h1, if_neg h2, if_pos h3]
          simp only [creditSlots, listSum, Prod.mk.injEq, PassAAcc.mk.injEq, List.cons.injEq]
          repeat' apply And.intro
          all_goals first | rfl | trivial | omega
        · simp only [passAStep, if_neg h1, if_neg h2, if_neg h3]
          rw [ih tv av tp inc pt]
          simp only [specPassACredits, if_pos h1, if_neg h2, if_neg h3]
          simp only [creditSlots, listSum, Prod.mk.injEq, PassAAcc.mk.injEq, List.cons.injEq]
          repeat' apply And.intro
          all_goals first | rfl | trivial | omega

lemma passB_spec (tv av N e cur : Nat) (he : 0 < e) (hN : N ≠ 0) :
    ∀ (l : List StakedInfo) (tp inc : Nat),
      passB tv av N e cur l ⟨tp, inc⟩
        = (creditSlots l (specPassBCredits N e cur av l) (specPassBCredits N e cur tv l),
           ⟨tp + listSum (specPassBCredits N e cur tv l),
            inc + listSum (specPassBCredits N e cur av l)⟩) := by
  intro l
  induction l with
  | nil =>
    intro tp inc
    simp [passB, specPassBCredits, creditSlots, listSum, hN]
  | cons s rest ih =>
    intro tp inc
    simp only [passB, specPassBCredits, if_neg hN, List.map_cons]
    by_cases hf : isFullSlot e cur s
    · have hcond : s.account ≠ 0 ∧ s.entryTime < cur := by
        obtain ⟨ha, hb, hc⟩ := hf
        exact ⟨ha, by omega⟩
      have hcond2 : e ≤ cur - s.entryTime := hf.2.2
      simp only [passBStep, if_pos hcond, if_pos hcond2]
      rw [passBCredit_eq av N s, passBCredit_eq tv N s]
      rw [ih (tp + s.balance * tv / N) (inc + s.balance * av / N)]
      simp only [specPassBCredits, if_neg hN, if_pos hf]
      simp only [creditSlots, listSum, Prod.mk.injEq, PassBAcc.mk.injEq, List.cons.injEq]
      repeat' apply And.intro
      all_goals first | rfl | trivial | omega
    · have hcond : ¬(s.account ≠ 0 ∧ s.entryTime < cur ∧ e ≤ cur - s.entryTime) := by
        rintro ⟨ha, hb, hc⟩
        exact hf ⟨ha, by omega, hc⟩
      have hstep : passBStep tv av N e cur s ⟨tp, inc⟩ = (s, ⟨tp, inc⟩) := by
        unfold passBStep
        by_cases hc1 : s.account ≠ 0 ∧ s.entryTime < cur
        · rw [if_pos hc1, if_neg (fun hge => hcond ⟨hc1.1, hc1.2, hge⟩)]
        · rw [if_neg hc1]
      rw [hstep]
      rw [ih tp inc]
      simp only [specPassBCredits, if_neg hN, if_neg hf]
      simp only [creditSlots, listSum, Prod.mk.injEq, PassBAcc.mk.injEq, List.cons.injEq]
      repeat' apply And.intro
      all_goals first | rfl | trivial | omega


lemma creditSlots_zeros : ∀ l : List StakedInfo,
    creditSlots l (l.map fun _ => 0) (l.map fun _ => 0) = l := by
  intro l
  induction l with
  | nil => rfl
  | cons s rest ih =>
    simp only [List.map_cons, creditSlots]
    rw [ih]
    rfl

lemma listSum_zeros : ∀ l : List StakedInfo, listSum (l.map fun _ => 0) = 0 := by
  intro l
  induction l with
  | nil => rfl
  | cons s rest ih => simp only [List.map_cons, listSum, ih]


/-! ### Two-pass distribution claim -/

/-- C6: a successful epochBalanceUpdate distributes rewards exactly as the
spec's two-pass description: pass A walks the occupied slots, credits each
partial-epoch staker floor(balance * availableReward * timePercentage /
(totalStaked * 1000)) with timePercentage = floor(timeInPool * 1000 /
epochSeconds), immediately deducting each credit from the remaining reward
and accumulating the partial stakers' stake (future-dated entries count as
partial with zero reward); pass B credits each full-epoch staker
floor(balance * remainingReward / (totalStaked − partialStakersTotalStake)),
for the algo and the token reward alike, and distributes nothing when the
reduced total is zero. -/
theorem epoch_two_pass (env : EpochEnv) (st st' : PoolState) (sum : EpochSummary)
    (hm : 0 < env.config.payoutEveryXMins)
    (hrun : epochBalanceUpdate env st = some (st', sum)) :
    st'.stakers = specTwoPassLedger st.totalAlgoStaked (env.config.payoutEveryXMins * 60)
      env.curTime sum.algoAvailForDistribution sum.tokenRewardAvailStart st.stakers ∧
    sum.increasedStake = specTwoPassIncreased st.totalAlgoStaked
      (env.config.payoutEveryXMins * 60) env.curTime sum.algoAvailForDistribution
      sum.tokenRewardAvailStart st.stakers := by
  obtain ⟨p, hprep, hdist⟩ := epochBalanceUpdate_eq hrun
  unfold epochDistribute at hdist
  injection hdist with hst hsum
  subst hst hsum
  have he : 0 < env.config.payoutEveryXMins * 60 := by omega
  have hA : passARun env st p
      = ((creditSlots st.stakers (specPassACredits st.totalAlgoStaked (env.config.payoutEveryXMins * 60) env.curTime p.availForDist st.stakers).1 (specPassACredits st.totalAlgoStaked (env.config.payoutEveryXMins * 60) env.curTime p.tokenAvail0 st.stakers).1),
         ⟨(specPassACredits st.totalAlgoStaked (env.config.payoutEveryXMins * 60) env.curTime p.tokenAvail0 st.stakers).2.1,
          (specPassACredits st.totalAlgoStaked (env.config.payoutEveryXMins * 60) env.curTime p.availForDist st.stakers).2.1,
          0 + listSum (specPassACredits st.totalAlgoStaked (env.config.payoutEveryXMins * 60) env.curTime p.tokenAvail0 st.stakers).1,
          0 + listSum (specPassACredits st.totalAlgoStaked (env.config.payoutEveryXMins * 60) env.curTime p.availForDist st.stakers).1,
          0 + (specPassACredits st.totalAlgoStaked (env.config.payoutEveryXMins * 60) env.curTime p.availForDist st.stakers).2.2⟩) :=
    passA_spec st.totalAlgoStaked (env.config.payoutEveryXMins * 60) env.curTime st.stakers
      p.tokenAvail0 p.availForDist 0 0 0
  constructor
  · show (passBRun env st p).1 = specTwoPassLedger st.totalAlgoStaked
      (env.config.payoutEveryXMins * 60) env.curTime p.availForDist p.tokenAvail0 st.stakers
    simp only [specTwoPassLedger]
    unfold passBRun newPoolTotalStake
    simp only [hA, Nat.zero_add]
    by_cases hpos : 0 < st.totalAlgoStaked - (specPassACredits st.totalAlgoStaked (env.config.payoutEveryXMins * 60) env.curTime p.availForDist st.stakers).2.2
    · rw [if_pos hpos]
      rw [passB_spec (specPassACredits st.totalAlgoStaked (env.config.payoutEveryXMins * 60) env.curTime p.tokenAvail0 st.stakers).2.1 (specPassACredits st.totalAlgoStaked (env.config.payoutEveryXMins * 60) env.curTime p.availForDist st.stakers).2.1
        (st.totalAlgoStaked - (specPassACredits st.totalAlgoStaked (env.config.payoutEveryXMins * 60) env.curTime p.availForDist st.stakers).2.2) (env.config.payoutEveryXMins * 60) env.curTime he
        (by omega) (creditSlots st.stakers (specPassACredits st.totalAlgoStaked (env.config.payoutEveryXMins * 60) env.curTime p.availForDist st.stakers).1 (specPassACredits st.totalAlgoStaked (env.config.payoutEveryXMins * 60) env.curTime p.tokenAvail0 st.stakers).1) 0 0]
    · rw [if_neg hpos]
      have h0 : st.totalAlgoStaked - (specPassACredits st.totalAlgoStaked (env.config.payoutEveryXMins * 60) env.curTime p.availForDist st.stakers).2.2 = 0 := by omega
      rw [h0]
      simp only [specPassBCredits, eq_self_iff_true, if_true]
      rw [creditSlots_zeros]
  · show (passARun env st p).2.increased + (passBRun env st p).2.increased
      = specTwoPassIncreased st.totalAlgoStaked (env.config.payoutEveryXMins * 60)
          env.curTime p.availForDist p.tokenAvail0 st.stakers
    simp only [specTwoPassIncreased]
    unfold passBRun newPoolTotalStake
    simp only [hA, Nat.zero_add]
    by_cases hpos : 0 < st.totalAlgoStaked - (specPassACredits st.totalAlgoStaked (env.config.payoutEveryXMins * 60) env.curTime p.availForDist st.stakers).2.2
    · rw [if_pos hpos]
      rw [passB_spec (specPassACredits st.totalAlgoStaked (env.config.payoutEveryXMins * 60) env.curTime p.tokenAvail0 st.stakers).2.1 (specPassACredits st.totalAlgoStaked (env.config.payoutEveryXMins * 60) env.curTime p.availForDist st.stakers).2.1
        (st.totalAlgoStaked - (specPassACredits st.totalAlgoStaked (env.config.payoutEveryXMins * 60) env.curTime p.availForDist st.stakers).2.2) (env.config.payoutEveryXMins * 60) env.curTime he
        (by omega) (creditSlots st.stakers (specPassACredits st.totalAlgoStaked (env.config.payoutEveryXMins * 60) env.curTime p.availForDist st.stakers).1 (specPassACredits st.totalAlgoStaked (env.config.payoutEveryXMins * 60) env.curTime p.tokenAvail0 st.stakers).1) 0 0]
      simp only [Nat.zero_add]
    · rw [if_neg hpos]
      have h0 : st.totalAlgoStaked - (specPassACredits st.totalAlgoStaked (env.config.payoutEveryXMins * 60) env.curTime p.availForDist st.stakers).2.2 = 0 := by omega
      rw [h0]
      simp only [specPassBCredits, eq_self_iff_true, if_true]
      rw [listSum_zeros]

theorem epoch_two_pass_witness :
    resPassW.1.stakers = specTwoPassLedger stPassW.totalAlgoStaked
      (envPassW.config.payoutEveryXMins * 60) envPassW.curTime
      resPassW.2.algoAvailForDistribution resPassW.2.tokenRewardAvailStart stPassW.stakers ∧
    resPassW.2.increasedStake = specTwoPassIncreased stPassW.totalAlgoStaked
      (envPassW.config.payoutEveryXMins * 60) envPassW.curTime
      resPassW.2.algoAvailForDistribution resPassW.2.tokenRewardAvailStart stPassW.stakers :=
  epoch_two_pass envPassW stPassW resPassW.1 resPassW.2 (by decide) (by decide)

end Reti
